import Mathlib

/-!
Verification of the SUS serialization core (custom_sus_io/dumper.py) of the
susc-converter repository.  The definitions below are a shallow embedding of the
Python source: Python ints become ℤ/ℕ, floats become ℚ, dicts become
insertion-ordered association lists, and raised exceptions become Except/Option
results.  Theorems about the spec's claims follow the definitions.
-/

set_option linter.unusedVariables false

namespace Sus

/-- Truncation toward zero: the behavior of Python's int() applied to a rational. -/
def pyInt (q : ℚ) : ℤ := if 0 ≤ q then ⌊q⌋ else -⌊-q⌋

/-- Base-36 digit character, 0-9 then lowercase a-z, as produced by base36.dumps. -/
def base36Digit (n : ℕ) : Char :=
  if n < 10 then Char.ofNat (48 + n) else Char.ofNat (87 + n)

/-- Base-36 rendering of a natural number, mirroring base36.dumps. -/
def base36Dump (n : ℕ) : String :=
  if h : n < 36 then String.singleton (base36Digit n)
  else base36Dump (n / 36) ++ String.singleton (base36Digit (n % 36))
  termination_by n
  decreasing_by exact Nat.div_lt_self (Nat.lt_of_lt_of_le (by norm_num) (Nat.le_of_not_lt h)) (by norm_num)

/-- Python str.zfill / zero padding to a given width. -/
def zfill (w : ℕ) (s : String) : String :=
  String.mk (List.replicate (w - s.length) '0') ++ s

/-- Python format(n, "03"): zero-pad the digits to total width 3, sign leading. -/
def pyFmt03 (m : ℤ) : String :=
  if m < 0 then String.singleton '-' ++ zfill 2 (toString (-m)) else zfill 3 (toString m)

/-- Decimal string of n / 10^k for k > 0, used for the fractional float rendering. -/
def insertPoint (n : ℤ) (k : ℕ) : String :=
  (if n < 0 then String.singleton '-' else "") ++
    (let s := zfill (k + 1) (toString n.natAbs)
     let m := s.length - k
     s.take m ++ String.singleton '.' ++ s.drop m)

/-- Shortest finite-decimal rendering of a rational, matching Python's str on the
floats this code actually handles; rationals with no finite decimal expansion within
17 digits fall back to a fraction spelling (unreachable for binary floats). -/
def decimalStr (q : ℚ) : String :=
  match (List.range 18).find? (fun k => decide ((q * (10 : ℚ) ^ k).den = 1)) with
  | some k =>
    if k = 0 then toString q.num ++ ".0"
    else insertPoint (q * (10 : ℚ) ^ k).num k
  | none => toString q.num ++ "/" ++ toString q.den

/-- dumper.format_number: drop the decimal part when it is zero, else the minimal
decimal form. -/
def format_number (q : ℚ) : String :=
  if q.den = 1 then toString q.num else decimalStr q

/-- Double-quoting of string metadata values (dumper.format_value with is_str). -/
def quoteStr (s : String) : String := "\"" ++ s ++ "\""

/-- The single-space separator controlled by the dumps space option. -/
def spaceStr : String := " "

/-- ChannelProvider.__init__: 36 channels, each bound to the (0, 0) sentinel. -/
def initChannelMap : List (ℕ × ℤ × ℤ) :=
  (List.range 36).map (fun k => (k, 0, 0))

/-- ChannelProvider.generate_channel: scan the channel map in order, take the first
channel whose binding is (0, 0) or does not overlap the requested interval, rebind it
in place and return its key; None models the "No more channel available" exception. -/
def generate_channel (start_tick end_tick : ℤ) :
    List (ℕ × ℤ × ℤ) → Option (ℕ × List (ℕ × ℤ × ℤ))
  | [] => none
  | (k, s, e) :: rest =>
    if (s = 0 ∧ e = 0) ∨ end_tick < s ∨ e < start_tick then
      some (k, (k, start_tick, end_tick) :: rest)
    else
      (generate_channel start_tick end_tick rest).map (fun r => (r.1, (k, s, e) :: r.2))

/-- Interval overlap as the spec defines it: not (endA < startB or endB < startA). -/
def intervalsOverlap (sa ea sb eb : ℤ) : Prop := ¬(ea < sb ∨ eb < sa)

instance (sa ea sb eb : ℤ) : Decidable (intervalsOverlap sa ea sb eb) := by
  unfold intervalsOverlap; infer_instance

/-- Modelled from the spec: the BarLength dataclass of custom_sus_io/schemas.py is not
in the source tree.  Per the dumper's constructor call BarLength(start_tick, measure,
value) and the spec's BarLengthSegment, it carries a segment's absolute start tick,
its first measure index and its beats-per-measure. -/
structure BarLength where
  start_tick : ℤ
  measure : ℤ
  value : ℚ
  deriving DecidableEq, Repr

/-- Ticks per measure of a segment: int(value * ticks_per_beat). -/
def tpmOf (tpb : ℕ) (bl : BarLength) : ℤ := pyInt (bl.value * (tpb : ℚ))

/-- The accumulation loop of dumps (dumper.py lines 116-125) turning sorted
(measure, value) entries into segments with absolute start ticks. -/
def buildSegments (tpb : ℕ) (acc : ℤ) : List (ℤ × ℚ) → List BarLength
  | [] => []
  | (m, v) :: rest =>
    let nextM : ℤ := match rest with | [] => 0 | p :: _ => p.1
    ⟨acc, m, v⟩ :: buildSegments tpb (acc + pyInt (((nextM - m : ℤ) : ℚ) * v * (tpb : ℚ))) rest

/-- bar_lengths_in_ticks after the reverse (dumper.py line 126). -/
def bar_lengths_in_ticks (tpb : ℕ) (bls : List (ℤ × ℚ)) : List BarLength :=
  (buildSegments tpb 0 bls).reverse

/-- The scan in push_raw: the first segment of the reversed list whose start tick
is ≤ tick (the loop body runs for the first hit, then breaks). -/
def findSeg (tick : ℤ) (segs : List BarLength) : Option BarLength :=
  segs.find? (fun bl => decide (bl.start_tick ≤ tick))

/-- The measure index computed by push_raw:
bar_length.measure + int((tick - start_tick) / ticks_per_beat / value). -/
def curMeasure (tpb : ℕ) (bl : BarLength) (tick : ℤ) : ℤ :=
  bl.measure + pyInt ((((tick - bl.start_tick : ℤ) : ℚ) / (tpb : ℚ)) / bl.value)

/-- One note_maps bucket: the appended raw (offset, symbol) pairs and the bucket's
recorded ticks_per_measure. -/
structure NoteMap where
  raws : List (ℤ × String)
  ticks_per_measure : ℤ
  deriving DecidableEq, Repr

/-- The fresh bucket a defaultdict access creates. -/
def emptyNoteMap : NoteMap := ⟨[], 0⟩

/-- note_maps is an insertion-ordered dict from line tag to bucket: updating an
existing tag keeps its position, a fresh tag is appended at the end. -/
def updateMap (tag : String) (f : NoteMap → NoteMap) :
    List (String × NoteMap) → List (String × NoteMap)
  | [] => [(tag, f emptyNoteMap)]
  | (t, nm) :: rest =>
    if t = tag then (t, f nm) :: rest else (t, nm) :: updateMap tag f rest

/-- Lookup of a tag's bucket. -/
def lookupTag (maps : List (String × NoteMap)) (tag : String) : Option NoteMap :=
  (maps.find? (fun p => decide (p.1 = tag))).map (fun p => p.2)

/-- dumper.push_raw: locate the segment of the tick, append the segment-relative
offset with the symbol to the (measure, info) bucket and record the bucket's
ticks_per_measure; with no matching segment nothing happens. -/
def push_raw (tpb : ℕ) (segs : List BarLength) (tick : ℤ) (info data : String)
    (maps : List (String × NoteMap)) : List (String × NoteMap) :=
  match findSeg tick segs with
  | none => maps
  | some bl =>
    updateMap (pyFmt03 (curMeasure tpb bl tick) ++ info)
      (fun nm => ⟨nm.raws ++ [(tick - bl.start_tick, data)], tpmOf tpb bl⟩) maps

/-- The gcd loop over a bucket (dumper.py lines 182-184): seeded with
ticks_per_measure and folded over the raw offsets. -/
def lineGcd (nm : NoteMap) : ℤ :=
  nm.raws.foldl (fun g r => (Int.gcd r.1 g : ℤ)) nm.ticks_per_measure

/-- The data dict of the render loop: keys are raw offsets reduced modulo
ticks_per_measure; a later write shadows an earlier one at the same key. -/
def buildData (tpm : ℤ) (raws : List (ℤ × String)) : List (ℤ × String) :=
  raws.foldl (fun d r => (r.1 % tpm, r.2) :: d) []

/-- Dict lookup returning the most recent write for the key. -/
def dataGet (d : List (ℤ × String)) (k : ℤ) : Option String :=
  (d.find? (fun p => decide (p.1 = k))).map (fun p => p.2)

/-- data.get(i) or "00": a missing or falsy entry renders as the empty cell. -/
def cellOrEmpty (o : Option String) : String :=
  match o with
  | some s => if s = "" then "00" else s
  | none => "00"

/-- Iteration count of range(0, tpm, g) for g > 0; Python raises for g = 0, which
valid buckets never produce, modelled as zero cells. -/
def cellCount (tpm g : ℤ) : ℕ := if 0 < g then ((tpm + g - 1) / g).toNat else 0

/-- The cells of one rendered line, cell j covering tick offset j * g. -/
def renderCells (tpm g : ℤ) (d : List (ℤ × String)) : List String :=
  (List.range (cellCount tpm g)).map (fun j : ℕ => cellOrEmpty (dataGet d ((j : ℤ) * g)))

/-- One rendered note line (dumper.py lines 181-191). -/
def renderLine (sep tag : String) (nm : NoteMap) : String :=
  "#" ++ tag ++ ":" ++ sep ++
    String.join (renderCells nm.ticks_per_measure (lineGcd nm) (buildData nm.ticks_per_measure nm.raws))

/-- All rendered note lines, in first-insertion order of the tags. -/
def renderLines (sep : String) (maps : List (String × NoteMap)) : List String :=
  maps.map (fun p => renderLine sep p.1 p.2)

/-- Modelled from the spec: the Metadata dataclass of custom_sus_io/schemas.py is not
in the source tree.  Fields per the spec's "metadata fields (optional strings/numbers)"
and those referenced by exporter.py and the dumper: string fields title, artist,
designer, numeric waveoffset, and the requests string list, iterated in declaration
order with requests last. -/
structure Metadata where
  title : Option String
  artist : Option String
  designer : Option String
  waveoffset : Option ℚ
  requests : Option (List String)
  deriving Repr

/-- The all-absent metadata value. -/
def emptyMetadata : Metadata := ⟨none, none, none, none, none⟩

/-- The ticks-per-beat override request syntax head. -/
def tpbReqHead : String := "ticks_per_beat"

/-- Python str.split() for the request strings (split on space runs). -/
def pySplit (s : String) : List String :=
  (s.splitOn spaceStr).filter (fun t => decide (t ≠ ""))

/-- The ticks_per_beat override scan of dumps lines 97-98.  Python's int() raise on a
malformed number is not modelled; such a request leaves ticks_per_beat unchanged. -/
def parseTpbReq (r : String) : Option ℕ :=
  if r.startsWith tpbReqHead then ((pySplit r)[1]?).bind (fun t => t.toNat?) else none

/-- The ticks_per_beat value in effect after the metadata loop (initial 480,
overridden by matching requests in order). -/
def metaTpb (md : Metadata) : ℕ :=
  match md.requests with
  | none => 480
  | some rs => rs.foldl (fun t r => match parseTpbReq r with | some n => n | none => t) 480

/-- A present optional field renders as one directive line, an absent one as none. -/
def optLine {α : Type} (o : Option α) (f : α → String) : List String :=
  match o with
  | none => []
  | some v => [f v]

/-- The plain (non-requests) metadata directive lines: one per present field. -/
def metaPlainLines (md : Metadata) : List String :=
  optLine md.title (fun v => "#TITLE " ++ quoteStr v) ++
  optLine md.artist (fun v => "#ARTIST " ++ quoteStr v) ++
  optLine md.designer (fun v => "#DESIGNER " ++ quoteStr v) ++
  optLine md.waveoffset (fun v => "#WAVEOFFSET " ++ format_number v)

/-- The requests block of dumps lines 93-96: when requests is present, first a blank
line, then one "#REQUEST" directive per string. -/
def metaReqBlock (md : Metadata) : List String :=
  match md.requests with
  | none => []
  | some rs => "" :: rs.map (fun r => "#REQUEST " ++ quoteStr r)

/-- The metadata directive lines of dumps lines 87-98: one line per present field,
with the requests block (preceded by its blank line) last. -/
def metaLines (md : Metadata) : List String :=
  metaPlainLines md ++ metaReqBlock md

/-- A note as the dumper consumes it.  Modelled from the spec: the Note dataclass of
custom_sus_io/schemas.py is not in the source tree; fields per the spec's Note model
(tick, lane, width, type code). -/
structure Note where
  tick : ℤ
  lane : ℕ
  width : ℕ
  type : ℕ
  deriving DecidableEq, Repr

/-- Modelled from the spec: the Score dataclass of custom_sus_io/schemas.py is not in
the source tree; fields per the attributes the dumper reads from it. -/
structure Score where
  metadata : Metadata
  taps : List Note
  directionals : List Note
  slides : List (List Note)
  guides : List (List Note)
  bpms : List (ℤ × ℚ)
  bar_lengths : List (ℤ × ℚ)
  tils : List (ℤ × ℚ)
  deriving Repr

/-- Python sorted on the first component (stable). -/
def sortByFst (xs : List (ℤ × ℚ)) : List (ℤ × ℚ) :=
  xs.mergeSort (fun a b => decide (a.1 ≤ b.1))

/-- Python sorted on the tick field (stable). -/
def sortByTick (xs : List Note) : List Note :=
  xs.mergeSort (fun a b => decide (a.tick ≤ b.tick))

/-- Sort key of a multi-point group: the first step's tick.  Python indexes the first
step and would raise IndexError on an empty group; an empty group keys as 0 here. -/
def groupKey (g : List Note) : ℤ :=
  match g with | [] => 0 | n :: _ => n.tick

/-- Python sorted on the first step's tick (stable). -/
def sortGroups (xs : List (List Note)) : List (List Note) :=
  xs.mergeSort (fun a b => decide (groupKey a ≤ groupKey b))

/-- The info tag of the BPM-reference pushes. -/
def bpmRefTag : String := "08"

/-- State of the BPM loop of dumps lines 140-146: the identifier dict, the emitted
definition lines and the note map being pushed into. -/
structure BpmState where
  idents : List (ℚ × String)
  defLines : List String
  maps : List (String × NoteMap)
  deriving Repr

/-- bpm_identifiers[value]; the none default is unreachable where it is used. -/
def identLookup (idents : List (ℚ × String)) (v : ℚ) : String :=
  match idents.find? (fun p => decide (p.1 = v)) with
  | some p => p.2
  | none => ""

/-- One iteration of the BPM loop: compute the candidate identifier from the current
dict size, define the value if unseen, then push its reference symbol. -/
def bpmStep (tpb : ℕ) (segs : List BarLength) (sep : String) (st : BpmState)
    (e : ℤ × ℚ) : BpmState :=
  let identifier := zfill 2 (base36Dump (st.idents.length + 1))
  let st1 :=
    if (st.idents.find? (fun p => decide (p.1 = e.2))).isSome then st
    else ⟨st.idents ++ [(e.2, identifier)],
          st.defLines ++ ["#BPM" ++ identifier ++ ":" ++ sep ++ format_number e.2],
          st.maps⟩
  ⟨st1.idents, st1.defLines, push_raw tpb segs e.1 bpmRefTag (identLookup st1.idents e.2) st1.maps⟩

/-- The whole BPM loop over the sorted tempo changes. -/
def bpmFold (tpb : ℕ) (segs : List BarLength) (sep : String) (bpms : List (ℤ × ℚ))
    (maps : List (String × NoteMap)) : BpmState :=
  bpms.foldl (bpmStep tpb segs sep) ⟨[], [], maps⟩

/-- The category digits of the line tags. -/
def tapCat : String := "1"

/-- Directional (air) note category digit. -/
def airCat : String := "5"

/-- Slide category digit. -/
def slideCat : String := "3"

/-- Guide category digit. -/
def guideCat : String := "9"

/-- The data symbol of a note push: f"{type}{width base36}". -/
def noteData (n : Note) : String := toString n.type ++ base36Dump n.width

/-- The pushes for taps and directionals: tag f"{cat}{lane base36}". -/
def pushNotes (tpb : ℕ) (segs : List BarLength) (cat : String) (notes : List Note)
    (maps : List (String × NoteMap)) : List (String × NoteMap) :=
  notes.foldl (fun m n => push_raw tpb segs n.tick (cat ++ base36Dump n.lane) (noteData n) m) maps

/-- The pushes of one multi-point group with its allocated channel embedded into the
line tag: f"{cat}{lane base36}{channel base36}". -/
def pushGroup (tpb : ℕ) (segs : List BarLength) (cat : String) (channel : ℕ)
    (steps : List Note) (maps : List (String × NoteMap)) : List (String × NoteMap) :=
  steps.foldl
    (fun m n =>
      push_raw tpb segs n.tick (cat ++ base36Dump n.lane ++ base36Dump channel) (noteData n) m)
    maps

/-- First and last tick of a group (steps[0].tick, steps[-1].tick).  Python raises
IndexError on an empty group; an empty group yields (0, 0) here. -/
def groupBounds (steps : List Note) : ℤ × ℤ :=
  (match steps with | [] => 0 | n :: _ => n.tick,
   match steps.getLast? with | none => 0 | some n => n.tick)

/-- The two exceptions dumps can raise: the BPM-count guard of line 137 and channel
exhaustion in generate_channel. -/
inductive DumpErr where
  | tooManyBpms
  | noChannel
  deriving DecidableEq, Repr

/-- The slide and guide loops (dumper.py lines 164-179): per group one channel
spanning its first to last tick, then a push per step. -/
def groupsFold (tpb : ℕ) (segs : List BarLength) (cat : String) :
    List (List Note) → List (ℕ × ℤ × ℤ) → List (String × NoteMap) →
    Except DumpErr (List (String × NoteMap))
  | [], _, maps => .ok maps
  | steps :: rest, prov, maps =>
    let b := groupBounds steps
    match generate_channel b.1 b.2 prov with
    | none => .error .noChannel
    | some r => groupsFold tpb segs cat rest r.2 (pushGroup tpb segs cat r.1 steps maps)

/-- One timescale entry of the aggregated TIL directive. -/
def tilEntry (tpb : ℕ) (p : ℤ × ℚ) : String :=
  toString (Int.fdiv p.1 ((tpb : ℤ) * 4)) ++ String.singleton (Char.ofNat 39) ++
    toString (Int.fmod p.1 ((tpb : ℤ) * 4)) ++ ":" ++ decimalStr p.2

/-- The comma separator of the TIL directive. -/
def commaSep : String := ", "

/-- The aggregated timescale directive of dumps lines 150-153. -/
def tilLine (tpb : ℕ) (tils : List (ℤ × ℚ)) : String :=
  "#TIL00: " ++ quoteStr (String.intercalate commaSep (tils.map (tilEntry tpb)))

/-- The fixed hi-speed stub. -/
def hispeedStub : String := "#HISPEED 00"

/-- The fixed measure hi-speed stub. -/
def measureHsStub : String := "#MEASUREHS 00"

/-- A sample two-character symbol used in witnesses and counterexamples. -/
def symb1a : String := "1a"

/-- A second sample symbol used in witnesses and counterexamples. -/
def symb1b : String := "1b"

/-- A sample BPM identifier symbol. -/
def symb01 : String := "01"

/-- A third sample symbol used in witnesses. -/
def symb1c : String := "1c"

/-- The spec's example bucket: ticksPerMeasure 1920 with offsets 0, 240 and 360. -/
def exampleBucket : NoteMap := ⟨[(0, symb1a), (240, symb1b), (360, symb1c)], 1920⟩

/-- A score with 36^2 - 1 tempo changes that all carry the same value 120. -/
def repeatedBpmScore : Score :=
  ⟨emptyMetadata, [], [], [], [], List.replicate (36 ^ 2 - 1) ((0 : ℤ), (120 : ℚ)), [], []⟩

/-- A score whose bar-length-change list is empty (and no notes at all). -/
def emptyBarScore : Score := ⟨emptyMetadata, [], [], [], [], [], [], []⟩

/-- A comment line used by concrete serializations. -/
def cxComment : String := "a comment"

/-- A score whose metadata carries a (empty) requests list, plus one 4/4 bar length. -/
def requestsScore : Score :=
  ⟨⟨some "T", none, none, none, some []⟩, [], [], [], [], [], [((0 : ℤ), (4 : ℚ))], []⟩

/-- The document layout claim C7 asserts: a header comment, then five blank-free
sections (metadata directives, bar-length directives, BPM definitions, stubs, note
lines) separated by single blank lines, with one trailing blank line and nothing
else interleaved. -/
def ClaimedSectionLayout (doc : List String) : Prop :=
  ∃ (c : String) (metaL barL bpmL stubL noteL : List String),
    doc = [c] ++ metaL ++ [""] ++ barL ++ [""] ++ bpmL ++ [""] ++ stubL ++ [""] ++
        noteL ++ [""] ∧
      c ≠ "" ∧ "" ∉ metaL ∧ "" ∉ barL ∧ "" ∉ bpmL ∧ "" ∉ stubL ∧ "" ∉ noteL

/-- The line tag of the bucket the C9 counterexample lands in. -/
def tag00108 : String := "00108"

/-- The section blocks a dumps call produces, in document order. -/
structure DumpParts where
  tpb : ℕ
  meta : List String
  barLines : List String
  bpmLines : List String
  stubLines : List String
  noteLines : List String
  deriving Repr

/-- One bar-length directive (dumper.py line 113). -/
def barDirective (sep : String) (p : ℤ × ℚ) : String :=
  "#" ++ pyFmt03 p.1 ++ "02:" ++ sep ++ format_number p.2

/-- The fallible scoredata stage of dumps: the BPM loop's pushes, the tap and
directional pushes, then the slide and guide groups with their channel allocations;
returns the BPM definition lines and the final note map. -/
def noteSections (tpb : ℕ) (segs : List BarLength) (sep : String)
    (bpms : List (ℤ × ℚ)) (taps dirs : List Note) (slides guides : List (List Note)) :
    Except DumpErr (List String × List (String × NoteMap)) :=
  match groupsFold tpb segs slideCat slides initChannelMap
      (pushNotes tpb segs airCat dirs
        (pushNotes tpb segs tapCat taps (bpmFold tpb segs sep bpms []).maps)) with
  | .error e => .error e
  | .ok m3 =>
    match groupsFold tpb segs guideCat guides initChannelMap m3 with
    | .error e => .error e
    | .ok m4 => .ok ((bpmFold tpb segs sep bpms []).defLines, m4)

/-- dumper.dumps, split into its section blocks; the Python function appends exactly
these line blocks to one list in this order (dumper.py lines 81-195). -/
def dumpsParts (score : Score) (space : Bool) : Except DumpErr DumpParts :=
  let sep := if space then spaceStr else ""
  let tpb := metaTpb score.metadata
  let bls := sortByFst score.bar_lengths
  let bpms := sortByFst score.bpms
  let tils := sortByFst score.tils
  let barLines := bls.map (barDirective sep)
  let segs := bar_lengths_in_ticks tpb bls
  if 36 ^ 2 - 1 ≤ bpms.length then .error .tooManyBpms
  else
    match noteSections tpb segs sep bpms (sortByTick score.taps)
        (sortByTick score.directionals) (sortGroups score.slides)
        (sortGroups score.guides) with
    | .error e => .error e
    | .ok r =>
      .ok ⟨tpb, metaLines score.metadata, barLines, r.1,
           [tilLine tpb tils, hispeedStub, measureHsStub], renderLines sep r.2⟩

/-- dumper.dumps: the complete document as a line list. -/
def dumps (score : Score) (comment : String) (space : Bool) : Except DumpErr (List String) :=
  (dumpsParts score space).map (fun p =>
    [comment] ++ p.meta ++ [""] ++ p.barLines ++ [""] ++ p.bpmLines ++ [""] ++
      p.stubLines ++ [""] ++ p.noteLines ++ [""])

/-- Spec-side measure lookup used by the reconstruction of claim C1: the first segment
of the reversed segment list whose first measure index is ≤ m. -/
def findMeasureSeg (m : ℤ) (segs : List BarLength) : Option BarLength :=
  segs.find? (fun bl => decide (bl.measure ≤ m))

/-- Spec-side reconstruction of the absolute tick of a (measure, cell index,
resolution) triple: the start tick of the measure plus the cell's tick offset. -/
def reconstructTick (tpb : ℕ) (segs : List BarLength) (m cellIdx res : ℤ) : Option ℤ :=
  (findMeasureSeg m segs).map (fun bl =>
    bl.start_tick + (m - bl.measure) * tpmOf tpb bl + cellIdx * res)

/-- A valid bar-length table: non-empty with the first entry at measure 0, measures
strictly ascending, and every beats-per-measure times ticks-per-beat a positive
whole tick count. -/
def ValidTable (tpb : ℕ) (bls : List (ℤ × ℚ)) : Prop :=
  (∃ v rest, bls = ((0 : ℤ), v) :: rest) ∧
  bls.Chain' (fun a b => a.1 < b.1) ∧
  ∀ p ∈ bls, ∃ n : ℕ, 0 < n ∧ p.2 * (tpb : ℚ) = (n : ℚ)

/-- Segment lists whose start ticks are linked by whole measures of positive length. -/
def Linked (tpb : ℕ) : List BarLength → Prop
  | [] => True
  | [_] => True
  | a :: b :: rest =>
    b.start_tick = a.start_tick + (b.measure - a.measure) * tpmOf tpb a ∧
    a.measure < b.measure ∧ Linked tpb (b :: rest)

/-- Each segment's ticks-per-measure is a positive integer. -/
def PosTpm (tpb : ℕ) (segs : List BarLength) : Prop :=
  ∀ bl ∈ segs, ∃ n : ℕ, 0 < n ∧ bl.value * (tpb : ℚ) = (n : ℚ)

/-- Spec-side for claim C6: the distinct tempo values in first-occurrence order. -/
def firstOccur (vals : List ℚ) : List ℚ :=
  vals.foldl (fun acc v => if v ∈ acc then acc else acc ++ [v]) []

/-- Spec-side for claim C6: pair the k-th value (0-based, after an initial shift) with
the 1-based two-character base-36 identifier the BPM table assigns it. -/
def numbered : List ℚ → ℕ → List (ℚ × String)
  | [], _ => []
  | v :: tl, k => (v, zfill 2 (base36Dump (k + 1))) :: numbered tl (k + 1)

lemma pyInt_intCast (z : ℤ) : pyInt (z : ℚ) = z := by
  unfold pyInt
  by_cases h : (0 : ℚ) ≤ (z : ℚ)
  · rw [if_pos h, Int.floor_intCast]
  · rw [if_neg h]
    have hz : -(z : ℚ) = ((-z : ℤ) : ℚ) := by push_cast; ring
    rw [hz, Int.floor_intCast]
    exact neg_neg z

lemma pyInt_intCast_div_natCast (a : ℤ) (n : ℕ) (ha : 0 ≤ a) (hn : 0 < n) :
    pyInt ((a : ℚ) / (n : ℚ)) = a / (n : ℤ) := by
  have hn0 : (0 : ℚ) < (n : ℚ) := by exact_mod_cast hn
  have hq : (0 : ℚ) ≤ (a : ℚ) / (n : ℚ) :=
    div_nonneg (by exact_mod_cast ha) hn0.le
  unfold pyInt
  rw [if_pos hq]
  exact Rat.floor_intCast_div_natCast a n

lemma tpmOf_eq (tpb : ℕ) (bl : BarLength) (n : ℕ) (h : bl.value * (tpb : ℚ) = (n : ℚ)) :
    tpmOf tpb bl = (n : ℤ) := by
  unfold tpmOf
  rw [h]
  have hc : ((n : ℕ) : ℚ) = (((n : ℤ) : ℤ) : ℚ) := by push_cast; ring
  rw [hc, pyInt_intCast]

lemma tpmOf_pos (tpb : ℕ) (bl : BarLength) (n : ℕ) (hn : 0 < n)
    (h : bl.value * (tpb : ℚ) = (n : ℚ)) : 0 < tpmOf tpb bl := by
  rw [tpmOf_eq tpb bl n h]
  exact_mod_cast hn

/-- The push_raw measure computation reduced to Euclidean division, on a segment whose
ticks-per-measure is the whole number n. -/
lemma curMeasure_eq (tpb : ℕ) (bl : BarLength) (T : ℤ) (n : ℕ) (hn : 0 < n)
    (h : bl.value * (tpb : ℚ) = (n : ℚ)) (hT : bl.start_tick ≤ T) :
    curMeasure tpb bl T = bl.measure + (T - bl.start_tick) / tpmOf tpb bl := by
  have htpb : ((tpb : ℕ) : ℚ) ≠ 0 := by
    intro h0
    rw [h0, mul_zero] at h
    have hne : (n : ℚ) ≠ 0 := by exact_mod_cast hn.ne'
    exact hne h.symm
  unfold curMeasure
  rw [div_div, mul_comm ((tpb : ℕ) : ℚ) bl.value, h]
  rw [pyInt_intCast_div_natCast (T - bl.start_tick) n (by omega) hn]
  rw [tpmOf_eq tpb bl n h]

lemma buildSegments_mem (tpb : ℕ) :
    ∀ (bls : List (ℤ × ℚ)) (acc : ℤ) (bl : BarLength),
      bl ∈ buildSegments tpb acc bls → ∃ p ∈ bls, bl.measure = p.1 ∧ bl.value = p.2 := by
  intro bls
  induction bls with
  | nil => intro acc bl h; simp [buildSegments] at h
  | cons p rest ih =>
    intro acc bl h
    have hun : buildSegments tpb acc (p :: rest) =
        ⟨acc, p.1, p.2⟩ ::
          buildSegments tpb
            (acc + pyInt ((((match rest with | [] => (0 : ℤ) | q :: _ => q.1) - p.1 : ℤ) : ℚ) *
              p.2 * ((tpb : ℕ) : ℚ))) rest := by
      cases p with
      | mk m v => cases rest <;> rfl
    rw [hun] at h
    rcases List.mem_cons.mp h with h1 | h2
    · exact ⟨p, List.mem_cons_self p rest, by rw [h1], by rw [h1]⟩
    · rcases ih _ bl h2 with ⟨q, hq, hm, hv⟩
      exact ⟨q, List.mem_cons_of_mem p hq, hm, hv⟩

lemma posTpm_buildSegments (tpb : ℕ) (bls : List (ℤ × ℚ)) (acc : ℤ)
    (hv : ∀ p ∈ bls, ∃ n : ℕ, 0 < n ∧ p.2 * (tpb : ℚ) = (n : ℚ)) :
    PosTpm tpb (buildSegments tpb acc bls) := by
  intro bl hbl
  rcases buildSegments_mem tpb bls acc bl hbl with ⟨p, hp, hm, hval⟩
  rcases hv p hp with ⟨n, hn, he⟩
  exact ⟨n, hn, by rw [hval]; exact he⟩

/-- Introduction form of Linked for a cons cell. -/
lemma linked_cons_of (tpb : ℕ) (a : BarLength) (l : List BarLength)
    (h : Linked tpb l)
    (hhead : ∀ b tl, l = b :: tl →
      b.start_tick = a.start_tick + (b.measure - a.measure) * tpmOf tpb a ∧
        a.measure < b.measure) :
    Linked tpb (a :: l) := by
  cases l with
  | nil => trivial
  | cons b tl => exact ⟨(hhead b tl rfl).1, (hhead b tl rfl).2, h⟩

lemma linked_buildSegments (tpb : ℕ) :
    ∀ (bls : List (ℤ × ℚ)) (acc : ℤ),
      bls.Chain' (fun a b => a.1 < b.1) →
      (∀ p ∈ bls, ∃ n : ℕ, 0 < n ∧ p.2 * (tpb : ℚ) = (n : ℚ)) →
      Linked tpb (buildSegments tpb acc bls) := by
  intro bls
  induction bls with
  | nil => intro acc _ _; trivial
  | cons p rest ih =>
    intro acc hch hv
    cases rest with
    | nil =>
      cases p with
      | mk m v => trivial
    | cons q rest2 =>
      have hlt : p.1 < q.1 := (List.chain'_cons.mp hch).1
      have hch2 := (List.chain'_cons.mp hch).2
      have hv2 : ∀ r ∈ q :: rest2, ∃ n : ℕ, 0 < n ∧ r.2 * (tpb : ℚ) = (n : ℚ) :=
        fun r hr => hv r (List.mem_cons_of_mem p hr)
      rcases hv p (List.mem_cons_self p _) with ⟨n, hn, he⟩
      have hc : ((q.1 - p.1 : ℤ) : ℚ) * p.2 * ((tpb : ℕ) : ℚ) =
          (((q.1 - p.1) * (n : ℤ) : ℤ) : ℚ) := by
        push_cast
        rw [mul_assoc, he]
      set acc2 := acc + pyInt (((q.1 - p.1 : ℤ) : ℚ) * p.2 * ((tpb : ℕ) : ℚ)) with hacc2
      have htail : Linked tpb (buildSegments tpb acc2 (q :: rest2)) := ih acc2 hch2 hv2
      have hun : buildSegments tpb acc (p :: q :: rest2) =
          ⟨acc, p.1, p.2⟩ :: buildSegments tpb acc2 (q :: rest2) := by
        cases p with
        | mk m v => rfl
      rw [hun]
      apply linked_cons_of tpb _ _ htail
      intro b tl heq
      have hun2 : ∃ tl2, buildSegments tpb acc2 (q :: rest2) = ⟨acc2, q.1, q.2⟩ :: tl2 := by
        cases q with
        | mk m2 v2 => cases rest2 <;> exact ⟨_, rfl⟩
      rcases hun2 with ⟨tl2, hun2⟩
      rw [hun2] at heq
      have hb : b = ⟨acc2, q.1, q.2⟩ := ((List.cons_eq_cons.mp heq).1).symm
      subst hb
      constructor
      · show acc2 = acc + (q.1 - p.1) * tpmOf tpb ⟨acc, p.1, p.2⟩
        rw [hacc2, hc, pyInt_intCast, tpmOf_eq tpb ⟨acc, p.1, p.2⟩ n he]
      · exact hlt

/-- Along a linked segment list with positive measure lengths the start ticks and
measure indices of all members dominate those of the head. -/
lemma linked_head_le (tpb : ℕ) :
    ∀ (l : List BarLength) (a : BarLength), Linked tpb (a :: l) → PosTpm tpb (a :: l) →
      ∀ x ∈ a :: l, a.start_tick ≤ x.start_tick ∧ a.measure ≤ x.measure := by
  intro l
  induction l with
  | nil =>
    intro a _ _ x hx
    rcases List.mem_singleton.mp hx with rfl
    exact ⟨le_refl _, le_refl _⟩
  | cons b rest ih =>
    intro a hl hp x hx
    have hl2 : b.start_tick = a.start_tick + (b.measure - a.measure) * tpmOf tpb a ∧
        a.measure < b.measure ∧ Linked tpb (b :: rest) := hl
    rcases hl2 with ⟨hstart, hmeas, htail⟩
    rcases hp a (List.mem_cons_self _ _) with ⟨n, hn, he⟩
    have htpm : 0 < tpmOf tpb a := tpmOf_pos tpb a n hn he
    have hab_start : a.start_tick ≤ b.start_tick := by
      rw [hstart]
      have h0 : 0 ≤ (b.measure - a.measure) * tpmOf tpb a :=
        mul_nonneg (by omega) htpm.le
      omega
    rcases List.mem_cons.mp hx with rfl | hx2
    · exact ⟨le_refl _, le_refl _⟩
    · have hp2 : PosTpm tpb (b :: rest) := fun y hy => hp y (List.mem_cons_of_mem a hy)
      rcases ih b htail hp2 x hx2 with ⟨h1, h2⟩
      exact ⟨le_trans hab_start h1, by omega⟩

/-- The main locate lemma: on a linked segment list whose head start tick is ≤ T, the
reversed scan of push_raw finds a segment bl with bl.start_tick ≤ T, and the
spec-side measure lookup of the computed measure index finds that same segment. -/
lemma locate_main (tpb : ℕ) :
    ∀ (rest : List BarLength) (a : BarLength),
      Linked tpb (a :: rest) → PosTpm tpb (a :: rest) →
      ∀ T : ℤ, a.start_tick ≤ T →
      ∃ bl ∈ a :: rest, findSeg T (a :: rest).reverse = some bl ∧ bl.start_tick ≤ T ∧
        findMeasureSeg (bl.measure + (T - bl.start_tick) / tpmOf tpb bl)
          ((a :: rest).reverse) = some bl := by
  intro rest
  induction rest with
  | nil =>
    intro a _ hp T hT
    rcases hp a (List.mem_cons_self _ _) with ⟨n, hn, he⟩
    have htpm : 0 < tpmOf tpb a := tpmOf_pos tpb a n hn he
    have hdiv_nonneg : 0 ≤ (T - a.start_tick) / tpmOf tpb a :=
      Int.ediv_nonneg (by omega) htpm.le
    refine ⟨a, List.mem_cons_self _ _, ?_, hT, ?_⟩
    · simp only [List.reverse_cons, List.reverse_nil, List.nil_append, findSeg]
      exact List.find?_cons_of_pos _ (by simpa using hT)
    · simp only [List.reverse_cons, List.reverse_nil, List.nil_append, findMeasureSeg]
      apply List.find?_cons_of_pos
      simp only [decide_eq_true_eq]
      linarith [hdiv_nonneg]
  | cons b rest2 ih =>
    intro a hl hp T hT
    have hl2 : b.start_tick = a.start_tick + (b.measure - a.measure) * tpmOf tpb a ∧
        a.measure < b.measure ∧ Linked tpb (b :: rest2) := hl
    rcases hl2 with ⟨hstart, hmeas, htail⟩
    rcases hp a (List.mem_cons_self _ _) with ⟨n, hn, he⟩
    have htpm : 0 < tpmOf tpb a := tpmOf_pos tpb a n hn he
    have hdiv_nonneg : 0 ≤ (T - a.start_tick) / tpmOf tpb a :=
      Int.ediv_nonneg (by omega) htpm.le
    have hp2 : PosTpm tpb (b :: rest2) := fun y hy => hp y (List.mem_cons_of_mem a hy)
    by_cases hb : b.start_tick ≤ T
    · rcases ih b htail hp2 T hb with ⟨bl, hmem, hfind, hle, hfindm⟩
      refine ⟨bl, List.mem_cons_of_mem a hmem, ?_, hle, ?_⟩
      · show findSeg T ((a :: b :: rest2).reverse) = some bl
        rw [List.reverse_cons]
        unfold findSeg at hfind ⊢
        rw [List.find?_append, hfind]
        rfl
      · show findMeasureSeg _ ((a :: b :: rest2).reverse) = some bl
        rw [List.reverse_cons]
        unfold findMeasureSeg at hfindm ⊢
        rw [List.find?_append, hfindm]
        rfl
    · have hafter : ∀ x ∈ b :: rest2, T < x.start_tick := by
        intro x hx
        have hdom := linked_head_le tpb rest2 b htail hp2 x hx
        omega
      have hnone : findSeg T (b :: rest2).reverse = none := by
        unfold findSeg
        rw [List.find?_eq_none]
        intro x hx
        simp only [decide_eq_true_eq]
        have hlt := hafter x (List.mem_reverse.mp hx)
        omega
      have hmlt : a.measure + (T - a.start_tick) / tpmOf tpb a < b.measure := by
        have hTb : T - a.start_tick < (b.measure - a.measure) * tpmOf tpb a := by omega
        have hdl := (@Int.ediv_lt_iff_lt_mul (T - a.start_tick) (b.measure - a.measure)
          (tpmOf tpb a) htpm).mpr hTb
        linarith [hdl]
      have hmnone : findMeasureSeg (a.measure + (T - a.start_tick) / tpmOf tpb a)
          ((b :: rest2).reverse) = none := by
        unfold findMeasureSeg
        rw [List.find?_eq_none]
        intro x hx
        simp only [decide_eq_true_eq]
        have hdom := linked_head_le tpb rest2 b htail hp2 x (List.mem_reverse.mp hx)
        linarith [hdom.2]
      refine ⟨a, List.mem_cons_self _ _, ?_, hT, ?_⟩
      · show findSeg T ((a :: b :: rest2).reverse) = some a
        rw [List.reverse_cons]
        unfold findSeg at hnone ⊢
        rw [List.find?_append, hnone]
        simp only [Option.none_or]
        exact List.find?_cons_of_pos _ (by simpa using hT)
      · show findMeasureSeg _ ((a :: b :: rest2).reverse) = some a
        rw [List.reverse_cons]
        unfold findMeasureSeg at hmnone ⊢
        rw [List.find?_append, hmnone]
        simp only [Option.none_or]
        apply List.find?_cons_of_pos
        simp only [decide_eq_true_eq]
        linarith [hdiv_nonneg]

/-- C1: for every tick T ≥ 0 and every valid bar-length table, locating T through the
measure timeline (the reversed-segment scan of push_raw, its measure-index computation
measure + int((T - startTick) / ticksPerBeat / value), and the within-measure offset
(T - startTick) mod ticksPerMeasure) and then reconstructing the absolute tick from
the resulting measure index and resolution-aligned cell index yields exactly T, for
every resolution dividing the segment's ticks-per-measure and the raw offset —
including ticks arbitrarily far past the last explicit bar-length change. -/
theorem C1_locate_roundtrip (tpb : ℕ) (bls : List (ℤ × ℚ)) (hv : ValidTable tpb bls)
    (T : ℤ) (hT : 0 ≤ T) :
    ∃ bl, findSeg T (bar_lengths_in_ticks tpb bls) = some bl ∧
      ∀ res : ℤ, 0 < res → res ∣ tpmOf tpb bl → res ∣ (T - bl.start_tick) →
        reconstructTick tpb (bar_lengths_in_ticks tpb bls) (curMeasure tpb bl T)
          (((T - bl.start_tick) % tpmOf tpb bl) / res) res = some T := by
  rcases hv with ⟨⟨v, rest, rfl⟩, hch, hvals⟩
  have hun : ∃ tl, buildSegments tpb 0 (((0 : ℤ), v) :: rest) = ⟨0, 0, v⟩ :: tl := by
    cases rest <;> exact ⟨_, rfl⟩
  rcases hun with ⟨tl, hun⟩
  have hlink : Linked tpb (buildSegments tpb 0 (((0 : ℤ), v) :: rest)) :=
    linked_buildSegments tpb _ 0 hch hvals
  have hpos : PosTpm tpb (buildSegments tpb 0 (((0 : ℤ), v) :: rest)) :=
    posTpm_buildSegments tpb _ 0 hvals
  rw [hun] at hlink hpos
  have hhead : (⟨0, 0, v⟩ : BarLength).start_tick ≤ T := hT
  rcases locate_main tpb tl ⟨0, 0, v⟩ hlink hpos T hhead with ⟨bl, hmem, hfind, hle, hfindm⟩
  rcases hpos bl hmem with ⟨n, hn, he⟩
  refine ⟨bl, ?_, ?_⟩
  · show findSeg T (bar_lengths_in_ticks tpb (((0 : ℤ), v) :: rest)) = some bl
    unfold bar_lengths_in_ticks
    rw [hun]
    exact hfind
  · intro res hres hdvd_tpm hdvd_off
    unfold bar_lengths_in_ticks reconstructTick
    rw [hun, curMeasure_eq tpb bl T n hn he hle, hfindm]
    have hdm := Int.ediv_add_emod (T - bl.start_tick) (tpmOf tpb bl)
    have h1 : res ∣ tpmOf tpb bl * ((T - bl.start_tick) / tpmOf tpb bl) :=
      dvd_mul_of_dvd_left hdvd_tpm _
    have hrw : (T - bl.start_tick) % tpmOf tpb bl =
        (T - bl.start_tick) - tpmOf tpb bl * ((T - bl.start_tick) / tpmOf tpb bl) := by
      linarith [hdm]
    have hoff_dvd : res ∣ (T - bl.start_tick) % tpmOf tpb bl := by
      rw [hrw]
      exact Int.dvd_sub hdvd_off h1
    simp only [Option.map_some', Option.some.injEq]
    rw [Int.ediv_mul_cancel hoff_dvd]
    linear_combination hdm

/-- Witness for C1 at a concrete two-segment table and a tick far past the last
bar-length change. -/
theorem C1_locate_roundtrip_witness :
    ValidTable 480 [((0 : ℤ), (4 : ℚ)), ((2 : ℤ), (3 : ℚ))] ∧ (0 : ℤ) ≤ 1000000 ∧
      (∃ bl, findSeg 1000000
          (bar_lengths_in_ticks 480 [((0 : ℤ), (4 : ℚ)), ((2 : ℤ), (3 : ℚ))]) = some bl ∧
        ∀ res : ℤ, 0 < res → res ∣ tpmOf 480 bl → res ∣ (1000000 - bl.start_tick) →
          reconstructTick 480 (bar_lengths_in_ticks 480 [((0 : ℤ), (4 : ℚ)), ((2 : ℤ), (3 : ℚ))])
            (curMeasure 480 bl 1000000)
            (((1000000 - bl.start_tick) % tpmOf 480 bl) / res) res = some 1000000) := by
  have hv : ValidTable 480 [((0 : ℤ), (4 : ℚ)), ((2 : ℤ), (3 : ℚ))] := by
    refine ⟨⟨4, [((2 : ℤ), (3 : ℚ))], rfl⟩, ?_, ?_⟩
    · refine List.chain'_cons.mpr ⟨by norm_num, ?_⟩
      exact List.chain'_singleton _
    · intro p hp
      rcases List.mem_cons.mp hp with rfl | hp2
      · exact ⟨1920, by norm_num, by norm_num⟩
      · rcases List.mem_singleton.mp hp2 with rfl
        exact ⟨1440, by norm_num, by norm_num⟩
  exact ⟨hv, by norm_num, C1_locate_roundtrip 480 _ hv 1000000 (by norm_num)⟩

lemma generate_channel_none_iff (s e : ℤ) :
    ∀ m : List (ℕ × ℤ × ℤ), generate_channel s e m = none ↔
      ∀ x ∈ m, ¬((x.2.1 = 0 ∧ x.2.2 = 0) ∨ e < x.2.1 ∨ x.2.2 < s) := by
  intro m
  induction m with
  | nil => simp [generate_channel]
  | cons p rest ih =>
    obtain ⟨k, a, b⟩ := p
    constructor
    · intro h x hx
      by_cases hc : (a = 0 ∧ b = 0) ∨ e < a ∨ b < s
      · exfalso
        unfold generate_channel at h
        rw [if_pos hc] at h
        exact Option.noConfusion h
      · unfold generate_channel at h
        rw [if_neg hc] at h
        have hrest : generate_channel s e rest = none := by
          cases hgc : generate_channel s e rest with
          | none => rfl
          | some r => rw [hgc] at h; exact Option.noConfusion h
        rcases List.mem_cons.mp hx with rfl | hx2
        · exact hc
        · exact (ih.mp hrest) x hx2
    · intro h
      have hc : ¬((a = 0 ∧ b = 0) ∨ e < a ∨ b < s) := by
        have hh := h (k, a, b) (List.mem_cons_self _ _)
        simpa using hh
      unfold generate_channel
      rw [if_neg hc]
      have hrest : generate_channel s e rest = none :=
        ih.mpr (fun x hx => h x (List.mem_cons_of_mem _ hx))
      rw [hrest]
      rfl

lemma generate_channel_some_iff (s e : ℤ) :
    ∀ (m : List (ℕ × ℤ × ℤ)) (k : ℕ) (m2 : List (ℕ × ℤ × ℤ)),
      generate_channel s e m = some (k, m2) →
      ∃ pre a b post, m = pre ++ (k, a, b) :: post ∧ m2 = pre ++ (k, s, e) :: post ∧
        ((a = 0 ∧ b = 0) ∨ e < a ∨ b < s) ∧
        ∀ y ∈ pre, ¬((y.2.1 = 0 ∧ y.2.2 = 0) ∨ e < y.2.1 ∨ y.2.2 < s) := by
  intro m
  induction m with
  | nil =>
    intro k m2 h
    exact absurd h (by simp [generate_channel])
  | cons p rest ih =>
    obtain ⟨k0, a, b⟩ := p
    intro k m2 h
    unfold generate_channel at h
    by_cases hc : (a = 0 ∧ b = 0) ∨ e < a ∨ b < s
    · rw [if_pos hc] at h
      injection h with h1
      have hk : k0 = k := congrArg Prod.fst h1
      have hm : (⟨k0, s, e⟩ :: rest : List (ℕ × ℤ × ℤ)) = m2 := congrArg Prod.snd h1
      subst hk
      refine ⟨[], a, b, rest, by simp, by simp [← hm], hc, by simp⟩
    · rw [if_neg hc] at h
      cases hgc : generate_channel s e rest with
      | none => rw [hgc] at h; exact Option.noConfusion h
      | some r =>
        rw [hgc] at h
        obtain ⟨r1, r2⟩ := r
        injection h with h1
        have hk : r1 = k := congrArg Prod.fst h1
        have hm : ((k0, a, b) :: r2 : List (ℕ × ℤ × ℤ)) = m2 := congrArg Prod.snd h1
        subst hk
        rcases ih r1 r2 hgc with ⟨pre, a2, b2, post, hm1, hm2, hcond, hpre⟩
        refine ⟨(k0, a, b) :: pre, a2, b2, post, ?_, ?_, hcond, ?_⟩
        · rw [List.cons_append, ← hm1]
        · rw [← hm, hm2, List.cons_append]
        · intro y hy
          rcases List.mem_cons.mp hy with rfl | hy2
          · simpa using hc
          · exact hpre y hy2

/-- C2 (amended): generate_channel scans the 36 channels in stable order and returns
the first whose binding is the (0, 0) sentinel or does not overlap the request,
rebinding it in place; a call fails exactly when every binding differs from (0, 0)
and overlaps the requested interval; and a bound channel whose interval is not
(0, 0) and overlaps the request is never returned — so any two groups with
overlapping intervals receive distinct channels unless the earlier interval was
exactly (0, 0). -/
theorem C2_generate_channel_spec (s e : ℤ) (m : List (ℕ × ℤ × ℤ))
    (hnd : (m.map (fun x => x.1)).Nodup) :
    (generate_channel s e m = none ↔
      ∀ x ∈ m, ¬(x.2.1 = 0 ∧ x.2.2 = 0) ∧ intervalsOverlap x.2.1 x.2.2 s e) ∧
    (∀ k m2, generate_channel s e m = some (k, m2) →
      ∃ pre a b post, m = pre ++ (k, a, b) :: post ∧ m2 = pre ++ (k, s, e) :: post ∧
        ((a = 0 ∧ b = 0) ∨ ¬intervalsOverlap a b s e) ∧
        ∀ y ∈ pre, ¬(y.2.1 = 0 ∧ y.2.2 = 0) ∧ intervalsOverlap y.2.1 y.2.2 s e) ∧
    (∀ k a b, (k, a, b) ∈ m → ¬(a = 0 ∧ b = 0) → intervalsOverlap a b s e →
      ∀ k2 m2, generate_channel s e m = some (k2, m2) → k2 ≠ k) := by
  have hcond : ∀ a b : ℤ, (¬((a = 0 ∧ b = 0) ∨ e < a ∨ b < s)) ↔
      (¬(a = 0 ∧ b = 0) ∧ intervalsOverlap a b s e) := by
    intro a b
    unfold intervalsOverlap
    constructor
    · intro h
      refine ⟨fun hp => h (Or.inl hp), fun hq => ?_⟩
      rcases hq with hq | hq
      · exact h (Or.inr (Or.inr hq))
      · exact h (Or.inr (Or.inl hq))
    · rintro ⟨hp, hq⟩ (hc | hc | hc)
      · exact hp hc
      · exact hq (Or.inr hc)
      · exact hq (Or.inl hc)
  refine ⟨?_, ?_, ?_⟩
  · rw [generate_channel_none_iff]
    constructor
    · intro h x hx
      exact (hcond x.2.1 x.2.2).mp (h x hx)
    · intro h x hx
      exact (hcond x.2.1 x.2.2).mpr (h x hx)
  · intro k m2 h
    rcases generate_channel_some_iff s e m k m2 h with ⟨pre, a, b, post, h1, h2, h3, h4⟩
    refine ⟨pre, a, b, post, h1, h2, ?_, ?_⟩
    · by_cases hs : a = 0 ∧ b = 0
      · exact Or.inl hs
      · rcases h3 with h3 | h3 | h3
        · exact Or.inl h3
        · exact Or.inr (fun hov => hov (Or.inr h3))
        · exact Or.inr (fun hov => hov (Or.inl h3))
    · intro y hy
      exact (hcond y.2.1 y.2.2).mp (h4 y hy)
  · intro k a b hmem hsent hov k2 m2 hgc hk
    subst hk
    rcases generate_channel_some_iff s e m k2 m2 hgc with ⟨pre, a2, b2, post, h1, h2, h3, h4⟩
    have hnd2 : ((pre.map (fun x => x.1)) ++ k2 :: (post.map (fun x => x.1))).Nodup := by
      have : m.map (fun x => x.1) =
          (pre.map (fun x => x.1)) ++ k2 :: (post.map (fun x => x.1)) := by
        rw [h1]
        simp
      rw [← this]
      exact hnd
    have hknotpre : k2 ∉ pre.map (fun x => x.1) := by
      intro hin
      have := List.Nodup.not_mem (List.Nodup.of_append_right hnd2)
      rcases List.nodup_append.mp hnd2 with ⟨_, _, hdisj⟩
      exact hdisj hin (List.mem_cons_self _ _)
    have hknotpost : k2 ∉ post.map (fun x => x.1) := by
      have hr := List.Nodup.of_append_right hnd2
      exact (List.nodup_cons.mp hr).1
    rw [h1] at hmem
    rcases List.mem_append.mp hmem with hin | hin
    · exact hknotpre (List.mem_map.mpr ⟨(k2, a, b), hin, rfl⟩)
    · rcases List.mem_cons.mp hin with heq | hin2
      · have ha : a = a2 := by
          have := congrArg (fun x => x.2.1) heq
          simpa using this
        have hb : b = b2 := by
          have := congrArg (fun x => x.2.2) heq
          simpa using this
        subst ha
        subst hb
        rcases h3 with h3 | h3 | h3
        · exact hsent h3
        · exact hov (Or.inr h3)
        · exact hov (Or.inl h3)
      · exact hknotpost (List.mem_map.mpr ⟨(k2, a, b), hin2, rfl⟩)

/-- Witness for C2 on the fresh 36-channel map. -/
theorem C2_generate_channel_spec_witness :
    ((initChannelMap.map (fun x => x.1)).Nodup) ∧
      ((generate_channel 0 5 initChannelMap = none ↔
        ∀ x ∈ initChannelMap, ¬(x.2.1 = 0 ∧ x.2.2 = 0) ∧ intervalsOverlap x.2.1 x.2.2 0 5) ∧
      (∀ k m2, generate_channel 0 5 initChannelMap = some (k, m2) →
        ∃ pre a b post, initChannelMap = pre ++ (k, a, b) :: post ∧
          m2 = pre ++ (k, 0, 5) :: post ∧
          ((a = 0 ∧ b = 0) ∨ ¬intervalsOverlap a b 0 5) ∧
          ∀ y ∈ pre, ¬(y.2.1 = 0 ∧ y.2.2 = 0) ∧ intervalsOverlap y.2.1 y.2.2 0 5) ∧
      (∀ k a b, (k, a, b) ∈ initChannelMap → ¬(a = 0 ∧ b = 0) → intervalsOverlap a b 0 5 →
        ∀ k2 m2, generate_channel 0 5 initChannelMap = some (k2, m2) → k2 ≠ k)) :=
  ⟨by decide, C2_generate_channel_spec 0 5 initChannelMap (by decide)⟩

/-- Counterexample to C2 as stated: on a fresh allocator every one of the 36 bound
intervals (all (0, 0)) overlaps the requested interval [0, 5], yet the call succeeds
and returns channel 0 instead of failing. -/
theorem C2_counterexample :
    (∀ x ∈ initChannelMap, intervalsOverlap x.2.1 x.2.2 0 5) ∧
      (generate_channel 0 5 initChannelMap).map (fun r => r.1) = some 0 := by
  constructor
  · decide
  · rfl

/-- C10: on a fresh allocator a (0, 0) binding is indistinguishable from a never-used
channel: generate_channel(0, 0) returns channel 0, and a subsequent
generate_channel(0, e) for any e ≥ 0 again returns channel 0 and rebinds it, even
though [0, e] overlaps the previously bound interval [0, 0]. -/
theorem C10_zero_binding_reused (e : ℤ) (he : 0 ≤ e) :
    ∃ m1 m2, generate_channel 0 0 initChannelMap = some (0, m1) ∧
      generate_channel 0 e m1 = some (0, m2) ∧ intervalsOverlap 0 0 0 e := by
  refine ⟨(0, 0, 0) :: initChannelMap.tail, (0, 0, e) :: initChannelMap.tail, ?_, ?_, ?_⟩
  · rfl
  · rfl
  · unfold intervalsOverlap
    push_neg
    exact ⟨le_refl 0, he⟩

/-- Witness for C10 at e = 5. -/
theorem C10_zero_binding_reused_witness :
    (0 : ℤ) ≤ 5 ∧
      ∃ m1 m2, generate_channel 0 0 initChannelMap = some (0, m1) ∧
        generate_channel 0 5 m1 = some (0, m2) ∧ intervalsOverlap 0 0 0 5 :=
  ⟨by norm_num, C10_zero_binding_reused 5 (by norm_num)⟩

lemma lookupTag_updateMap_self :
    ∀ (maps : List (String × NoteMap)) (tag : String) (f : NoteMap → NoteMap),
      lookupTag (updateMap tag f maps) tag =
        some (f ((lookupTag maps tag).getD emptyNoteMap)) := by
  intro maps
  induction maps with
  | nil =>
    intro tag f
    simp [updateMap, lookupTag, List.find?]
  | cons p rest ih =>
    intro tag f
    obtain ⟨t, nm⟩ := p
    by_cases h : t = tag
    · subst h
      simp [updateMap, lookupTag, List.find?]
    · unfold updateMap
      rw [if_neg h]
      unfold lookupTag at ih ⊢
      rw [List.find?_cons_of_neg _ (by simpa using h),
        List.find?_cons_of_neg _ (by simpa using h)]
      exact ih tag f

lemma buildData_append (tpm : ℤ) (raws : List (ℤ × String)) (r : ℤ × String) :
    buildData tpm (raws ++ [r]) = (r.1 % tpm, r.2) :: buildData tpm raws := by
  unfold buildData
  rw [List.foldl_append]
  rfl

lemma dataGet_cons_self (d : List (ℤ × String)) (k : ℤ) (v : String) :
    dataGet ((k, v) :: d) k = some v := by
  unfold dataGet
  rw [List.find?_cons_of_pos _ (by simp)]
  rfl

lemma segs_one : bar_lengths_in_ticks 480 [((0 : ℤ), (4 : ℚ))] = [(⟨0, 0, 4⟩ : BarLength)] :=
  rfl

lemma tpm_one : tpmOf 480 (⟨0, 0, 4⟩ : BarLength) = 1920 := by
  norm_num [tpmOf, pyInt]

lemma curMeasure_one_1920 : curMeasure 480 (⟨0, 0, 4⟩ : BarLength) 1920 = 1 := by
  norm_num [curMeasure, pyInt]

lemma curMeasure_one_240 : curMeasure 480 (⟨0, 0, 4⟩ : BarLength) 240 = 0 := by
  norm_num [curMeasure, pyInt]

/-- C8: when two pushes target the same (measure, lineTag, offset) key, the second
push's symbol is appended after the first in the bucket, and the data dict built at
render time yields the later symbol at that offset's key — last write wins, and no
conflict error exists anywhere in the pipeline. -/
theorem C8_last_write_wins (tpb : ℕ) (segs : List BarLength) (tick : ℤ)
    (info d1 d2 : String) (maps : List (String × NoteMap)) (bl : BarLength)
    (hf : findSeg tick segs = some bl) :
    ∃ nm, lookupTag (push_raw tpb segs tick info d2 (push_raw tpb segs tick info d1 maps))
        (pyFmt03 (curMeasure tpb bl tick) ++ info) = some nm ∧
      (∃ xs, nm.raws = xs ++ [(tick - bl.start_tick, d1), (tick - bl.start_tick, d2)]) ∧
      dataGet (buildData nm.ticks_per_measure nm.raws)
        ((tick - bl.start_tick) % nm.ticks_per_measure) = some d2 := by
  unfold push_raw
  rw [hf]
  have h1 := lookupTag_updateMap_self maps (pyFmt03 (curMeasure tpb bl tick) ++ info)
    (fun nm => ⟨nm.raws ++ [(tick - bl.start_tick, d1)], tpmOf tpb bl⟩)
  have h2 := lookupTag_updateMap_self
    (updateMap (pyFmt03 (curMeasure tpb bl tick) ++ info)
      (fun nm => ⟨nm.raws ++ [(tick - bl.start_tick, d1)], tpmOf tpb bl⟩) maps)
    (pyFmt03 (curMeasure tpb bl tick) ++ info)
    (fun nm => ⟨nm.raws ++ [(tick - bl.start_tick, d2)], tpmOf tpb bl⟩)
  rw [h1] at h2
  simp only [Option.getD_some] at h2
  refine ⟨_, h2, ?_, ?_⟩
  · refine ⟨((lookupTag maps (pyFmt03 (curMeasure tpb bl tick) ++ info)).getD emptyNoteMap).raws, ?_⟩
    simp [List.append_assoc]
  · simp only
    rw [buildData_append]
    exact dataGet_cons_self _ _ _

/-- Witness for C8: two pushes at tick 240 on the same line tag of a one-segment
table; the bucket holds both raws in order and the data lookup returns the second. -/
theorem C8_last_write_wins_witness :
    findSeg 240 (bar_lengths_in_ticks 480 [((0 : ℤ), (4 : ℚ))]) =
        some (⟨0, 0, 4⟩ : BarLength) ∧
      (∃ nm, lookupTag
          (push_raw 480 (bar_lengths_in_ticks 480 [((0 : ℤ), (4 : ℚ))]) 240 tapCat symb1b
            (push_raw 480 (bar_lengths_in_ticks 480 [((0 : ℤ), (4 : ℚ))]) 240 tapCat symb1a []))
          (pyFmt03 (curMeasure 480 (⟨0, 0, 4⟩ : BarLength) 240) ++ tapCat) = some nm ∧
        (∃ xs, nm.raws = xs ++ [(240 - (0 : ℤ), symb1a), (240 - (0 : ℤ), symb1b)]) ∧
        dataGet (buildData nm.ticks_per_measure nm.raws)
          ((240 - (0 : ℤ)) % nm.ticks_per_measure) = some symb1b) := by
  have hf : findSeg 240 (bar_lengths_in_ticks 480 [((0 : ℤ), (4 : ℚ))]) =
      some (⟨0, 0, 4⟩ : BarLength) := by
    rw [segs_one]
    unfold findSeg
    exact List.find?_cons_of_pos _ (by decide)
  exact ⟨hf, C8_last_write_wins 480 _ 240 tapCat symb1a symb1b [] ⟨0, 0, 4⟩ hf⟩

lemma buildData_keys (tpm : ℤ) :
    ∀ (raws : List (ℤ × String)) (d : List (ℤ × String)) (p : ℤ × String),
      p ∈ raws.foldl (fun d r => (r.1 % tpm, r.2) :: d) d →
      p ∈ d ∨ ∃ r ∈ raws, p.1 = r.1 % tpm := by
  intro raws
  induction raws with
  | nil => intro d p hp; exact Or.inl hp
  | cons r tl ih =>
    intro d p hp
    rcases ih _ p hp with hin | ⟨r2, hr2, hk⟩
    · rcases List.mem_cons.mp hin with rfl | hin2
      · exact Or.inr ⟨r, List.mem_cons_self _ _, rfl⟩
      · exact Or.inl hin2
    · exact Or.inr ⟨r2, List.mem_cons_of_mem _ hr2, hk⟩

/-- C9 (amended): the offsets push_raw stores are segment-relative and can reach or
exceed the bucket's ticks_per_measure; only the render step reduces them, so every
key of the rendered data dict lies in [0, ticksPerMeasure). -/
theorem C9_reduced_at_render (tpm : ℤ) (htpm : 0 < tpm) (raws : List (ℤ × String)) :
    ∀ k ∈ (buildData tpm raws).map (fun p => p.1), 0 ≤ k ∧ k < tpm := by
  intro k hk
  rcases List.mem_map.mp hk with ⟨p, hp, rfl⟩
  rcases buildData_keys tpm raws [] p hp with hin | ⟨r, hr, hk2⟩
  · simp at hin
  · rw [hk2]
    exact ⟨Int.emod_nonneg _ htpm.ne', Int.emod_lt_of_pos _ htpm⟩

/-- Witness for C9's amended statement on a concrete bucket with an out-of-range raw
offset. -/
theorem C9_reduced_at_render_witness :
    (0 : ℤ) < 1920 ∧
      ∀ k ∈ (buildData 1920 [((1920 : ℤ), symb1a)]).map (fun p => p.1),
        0 ≤ k ∧ k < 1920 :=
  ⟨by norm_num, C9_reduced_at_render 1920 (by norm_num) [((1920 : ℤ), symb1a)]⟩

lemma gcdFold_dvd :
    ∀ (l : List (ℤ × String)) (g0 : ℤ),
      (l.foldl (fun g r => (Int.gcd r.1 g : ℤ)) g0) ∣ g0 ∧
      ∀ r ∈ l, (l.foldl (fun g r => (Int.gcd r.1 g : ℤ)) g0) ∣ r.1 := by
  intro l
  induction l with
  | nil => exact fun g0 => ⟨dvd_refl g0, by simp⟩
  | cons r tl ih =>
    intro g0
    have h := ih ((Int.gcd r.1 g0 : ℤ))
    constructor
    · exact dvd_trans h.1 Int.gcd_dvd_right
    · intro r2 hr2
      rcases List.mem_cons.mp hr2 with rfl | hr3
      · exact dvd_trans h.1 Int.gcd_dvd_left
      · exact h.2 r2 hr3

lemma gcdFold_greatest :
    ∀ (l : List (ℤ × String)) (g0 d : ℤ), d ∣ g0 → (∀ r ∈ l, d ∣ r.1) →
      d ∣ l.foldl (fun g r => (Int.gcd r.1 g : ℤ)) g0 := by
  intro l
  induction l with
  | nil => exact fun g0 d h _ => h
  | cons r tl ih =>
    intro g0 d hseed hall
    exact ih _ d (Int.dvd_gcd (hall r (List.mem_cons_self _ _)) hseed)
      (fun r2 hr2 => hall r2 (List.mem_cons_of_mem _ hr2))

lemma gcdFold_pos :
    ∀ (l : List (ℤ × String)) (g0 : ℤ), 0 < g0 →
      0 < l.foldl (fun g r => (Int.gcd r.1 g : ℤ)) g0 := by
  intro l
  induction l with
  | nil => exact fun g0 h => h
  | cons r tl ih =>
    intro g0 h
    apply ih
    show (0 : ℤ) < (Int.gcd r.1 g0 : ℤ)
    have hpos : 0 < Int.gcd r.1 g0 := Int.gcd_pos_iff.mpr (Or.inr (by omega))
    exact_mod_cast hpos

lemma dataGet_buildData_of_mem (tpm : ℤ) :
    ∀ (raws : List (ℤ × String)),
      (∀ r ∈ raws, 0 ≤ r.1 ∧ r.1 < tpm) → ((raws.map (fun r => r.1)).Nodup) →
      ∀ r ∈ raws, dataGet (buildData tpm raws) r.1 = some r.2 := by
  intro raws
  induction raws using List.reverseRecOn with
  | nil => intro _ _ r hr; simp at hr
  | append_singleton l x ih =>
    intro hb hnd r hr
    have hxb := hb x (by simp)
    have hxmod : x.1 % tpm = x.1 := Int.emod_eq_of_lt hxb.1 hxb.2
    rw [buildData_append, hxmod]
    have hndl : (l.map (fun r => r.1)).Nodup := by
      rw [List.map_append] at hnd
      exact List.Nodup.of_append_left hnd
    have hxnot : x.1 ∉ l.map (fun r => r.1) := by
      rw [List.map_append] at hnd
      rcases List.nodup_append.mp hnd with ⟨_, _, hdisj⟩
      intro hin
      exact hdisj hin (by simp)
    rcases List.mem_append.mp hr with hrl | hrx
    · have hne : x.1 ≠ r.1 := by
        intro he
        exact hxnot (he ▸ List.mem_map.mpr ⟨r, hrl, rfl⟩)
      unfold dataGet
      rw [List.find?_cons_of_neg _ (by simpa using hne)]
      exact ih (fun r2 hr2 => hb r2 (List.mem_append_left _ hr2)) hndl r hrl
    · rcases List.mem_singleton.mp hrx with rfl
      exact dataGet_cons_self _ _ _

lemma dataGet_buildData_none (tpm : ℤ) (raws : List (ℤ × String)) (k : ℤ)
    (h : ∀ r ∈ raws, ¬(r.1 % tpm = k)) : dataGet (buildData tpm raws) k = none := by
  unfold dataGet
  rw [List.find?_eq_none.mpr, Option.map_none']
  intro p hp
  rcases buildData_keys tpm raws [] p hp with hin | ⟨r, hr, hk⟩
  · simp at hin
  · simp only [decide_eq_true_eq]
    rw [hk]
    exact h r hr

lemma cellCount_eq (tpm g : ℤ) (hg : 0 < g) (hdvd : g ∣ tpm) (h0 : 0 ≤ tpm) :
    cellCount tpm g = (tpm / g).toNat := by
  unfold cellCount
  rw [if_pos hg]
  obtain ⟨q, rfl⟩ := hdvd
  congr 1
  rw [Int.mul_ediv_cancel_left _ hg.ne']
  have hq : 0 ≤ q := by
    by_contra hneg
    push_neg at hneg
    have : g * q < 0 := mul_neg_of_pos_of_neg hg hneg
    omega
  have hrw : g * q + g - 1 = (g - 1) + g * q := by ring
  rw [hrw, Int.add_mul_ediv_left _ _ hg.ne',
    Int.ediv_eq_zero_of_lt (by omega) (by omega), zero_add]

lemma cellOrEmpty_some (s : String) : cellOrEmpty (some s) = if s = "" then "00" else s :=
  rfl

lemma renderCells_length (tpm g : ℤ) (d : List (ℤ × String)) :
    (renderCells tpm g d).length = cellCount tpm g := by
  unfold renderCells
  rw [List.length_map, List.length_range]

lemma renderCells_get (tpm g : ℤ) (d : List (ℤ × String)) (j : ℕ)
    (hj : j < cellCount tpm g) :
    (renderCells tpm g d)[j]? = some (cellOrEmpty (dataGet d ((j : ℤ) * g))) := by
  unfold renderCells
  rw [List.getElem?_map, List.getElem?_range hj, Option.map_some']

/-- C4: for every bucket with positive ticks-per-measure whose recorded offsets are
distinct, in range and carry non-empty symbols, the rendering resolution is the gcd of
ticksPerMeasure and all offsets (it is positive, divides ticksPerMeasure and every
offset, and every common divisor divides it), the line has exactly
ticksPerMeasure / resolution cells, each recorded symbol sits at cell index
offset / resolution, and every other cell is the empty cell "00". -/
theorem C4_render_resolution (nm : NoteMap)
    (htpos : 0 < nm.ticks_per_measure)
    (hoff : ∀ r ∈ nm.raws, 0 ≤ r.1 ∧ r.1 < nm.ticks_per_measure)
    (hnd : (nm.raws.map (fun r => r.1)).Nodup)
    (hsym : ∀ r ∈ nm.raws, r.2 ≠ "") :
    0 < lineGcd nm ∧ lineGcd nm ∣ nm.ticks_per_measure ∧
    (∀ r ∈ nm.raws, lineGcd nm ∣ r.1) ∧
    (∀ d : ℤ, d ∣ nm.ticks_per_measure → (∀ r ∈ nm.raws, d ∣ r.1) → d ∣ lineGcd nm) ∧
    (renderCells nm.ticks_per_measure (lineGcd nm)
        (buildData nm.ticks_per_measure nm.raws)).length
      = (nm.ticks_per_measure / lineGcd nm).toNat ∧
    (∀ r ∈ nm.raws,
      (renderCells nm.ticks_per_measure (lineGcd nm)
        (buildData nm.ticks_per_measure nm.raws))[(r.1 / lineGcd nm).toNat]? = some r.2) ∧
    (∀ j : ℕ, j < (nm.ticks_per_measure / lineGcd nm).toNat →
      (∀ r ∈ nm.raws, r.1 ≠ (j : ℤ) * lineGcd nm) →
      (renderCells nm.ticks_per_measure (lineGcd nm)
        (buildData nm.ticks_per_measure nm.raws))[j]? = some "00") := by
  have hgd := gcdFold_dvd nm.raws nm.ticks_per_measure
  have hgpos : 0 < lineGcd nm := gcdFold_pos nm.raws nm.ticks_per_measure htpos
  have hseed : lineGcd nm ∣ nm.ticks_per_measure := hgd.1
  have hmem : ∀ r ∈ nm.raws, lineGcd nm ∣ r.1 := hgd.2
  have hcells : cellCount nm.ticks_per_measure (lineGcd nm) =
      (nm.ticks_per_measure / lineGcd nm).toNat :=
    cellCount_eq _ _ hgpos hseed htpos.le
  refine ⟨hgpos, hseed, hmem, ?_, ?_, ?_, ?_⟩
  · exact fun d hd hall => gcdFold_greatest nm.raws nm.ticks_per_measure d hd hall
  · rw [renderCells_length, hcells]
  · intro r hr
    have hb := hoff r hr
    have hjlt : r.1 / lineGcd nm < nm.ticks_per_measure / lineGcd nm := by
      obtain ⟨q, hq⟩ := hseed
      have hqg : nm.ticks_per_measure / lineGcd nm = q := by
        rw [hq, Int.mul_ediv_cancel_left _ hgpos.ne']
      rw [hqg]
      refine (Int.ediv_lt_iff_lt_mul hgpos).mpr ?_
      rw [mul_comm, ← hq]
      exact hb.2
    have hjn : (r.1 / lineGcd nm).toNat < (nm.ticks_per_measure / lineGcd nm).toNat := by
      refine (Int.toNat_lt_toNat ?_).mpr hjlt
      have := Int.ediv_nonneg hb.1 hgpos.le
      omega
    rw [renderCells_get _ _ _ _ (by rw [hcells]; exact hjn)]
    rw [Int.toNat_of_nonneg (Int.ediv_nonneg hb.1 hgpos.le),
      Int.ediv_mul_cancel (hmem r hr),
      dataGet_buildData_of_mem nm.ticks_per_measure nm.raws hoff hnd r hr]
    rw [cellOrEmpty_some, if_neg (hsym r hr)]
  · intro j hj hno
    rw [renderCells_get _ _ _ _ (by rw [hcells]; exact hj)]
    rw [dataGet_buildData_none]
    · rfl
    · intro r hr
      have hb := hoff r hr
      rw [Int.emod_eq_of_lt hb.1 hb.2]
      exact hno r hr

/-- Witness for C4 on the spec's example bucket (ticksPerMeasure 1920, offsets
0/240/360): the resolution is 120 and the line renders exactly 16 cells. -/
theorem C4_render_resolution_witness :
    ((0 : ℤ) < exampleBucket.ticks_per_measure ∧
      (∀ r ∈ exampleBucket.raws, 0 ≤ r.1 ∧ r.1 < exampleBucket.ticks_per_measure) ∧
      ((exampleBucket.raws.map (fun r => r.1)).Nodup) ∧
      (∀ r ∈ exampleBucket.raws, r.2 ≠ "")) ∧
    lineGcd exampleBucket = 120 ∧
    (renderCells exampleBucket.ticks_per_measure (lineGcd exampleBucket)
      (buildData exampleBucket.ticks_per_measure exampleBucket.raws)).length = 16 ∧
    (0 < lineGcd exampleBucket ∧ lineGcd exampleBucket ∣ exampleBucket.ticks_per_measure ∧
    (∀ r ∈ exampleBucket.raws, lineGcd exampleBucket ∣ r.1) ∧
    (∀ d : ℤ, d ∣ exampleBucket.ticks_per_measure →
      (∀ r ∈ exampleBucket.raws, d ∣ r.1) → d ∣ lineGcd exampleBucket) ∧
    (renderCells exampleBucket.ticks_per_measure (lineGcd exampleBucket)
        (buildData exampleBucket.ticks_per_measure exampleBucket.raws)).length
      = (exampleBucket.ticks_per_measure / lineGcd exampleBucket).toNat ∧
    (∀ r ∈ exampleBucket.raws,
      (renderCells exampleBucket.ticks_per_measure (lineGcd exampleBucket)
        (buildData exampleBucket.ticks_per_measure exampleBucket.raws))[
          (r.1 / lineGcd exampleBucket).toNat]? = some r.2) ∧
    (∀ j : ℕ, j < (exampleBucket.ticks_per_measure / lineGcd exampleBucket).toNat →
      (∀ r ∈ exampleBucket.raws, r.1 ≠ (j : ℤ) * lineGcd exampleBucket) →
      (renderCells exampleBucket.ticks_per_measure (lineGcd exampleBucket)
        (buildData exampleBucket.ticks_per_measure exampleBucket.raws))[j]? = some "00")) := by
  have hg : lineGcd exampleBucket = 120 := by
    norm_num [lineGcd, exampleBucket, symb1a, symb1b, symb1c]
  have hhyps : (0 : ℤ) < exampleBucket.ticks_per_measure ∧
      (∀ r ∈ exampleBucket.raws, 0 ≤ r.1 ∧ r.1 < exampleBucket.ticks_per_measure) ∧
      ((exampleBucket.raws.map (fun r => r.1)).Nodup) ∧
      (∀ r ∈ exampleBucket.raws, r.2 ≠ "") := by decide
  refine ⟨hhyps, hg, ?_, C4_render_resolution exampleBucket hhyps.1 hhyps.2.1 hhyps.2.2.1 hhyps.2.2.2⟩
  rw [renderCells_length, cellCount_eq _ _ (by rw [hg]; norm_num)
    (by rw [hg]; norm_num [exampleBucket]) (by norm_num [exampleBucket]), hg]
  decide

lemma sortByFst_length (xs : List (ℤ × ℚ)) : (sortByFst xs).length = xs.length :=
  List.length_mergeSort xs

lemma groupsFold_ne_tooMany (tpb : ℕ) (segs : List BarLength) (cat : String) :
    ∀ (groups : List (List Note)) (prov : List (ℕ × ℤ × ℤ))
      (maps : List (String × NoteMap)),
      groupsFold tpb segs cat groups prov maps ≠ .error .tooManyBpms := by
  intro groups
  induction groups with
  | nil => intro prov maps h; exact Except.noConfusion h
  | cons steps rest ih =>
    intro prov maps h
    unfold groupsFold at h
    cases hgc : generate_channel (groupBounds steps).1 (groupBounds steps).2 prov with
    | none =>
      simp only [hgc] at h
      injection h with h2
      exact DumpErr.noConfusion h2
    | some r =>
      simp only [hgc] at h
      exact ih r.2 _ h

lemma noteSections_ne_tooMany (tpb : ℕ) (segs : List BarLength) (sep : String)
    (bpms : List (ℤ × ℚ)) (taps dirs : List Note) (slides guides : List (List Note)) :
    noteSections tpb segs sep bpms taps dirs slides guides ≠ .error .tooManyBpms := by
  intro h
  unfold noteSections at h
  split at h
  · rename_i e heq
    injection h with h2
    subst h2
    exact groupsFold_ne_tooMany _ _ _ _ _ _ heq
  · rename_i m3 heq
    split at h
    · rename_i e heq2
      injection h with h2
      subst h2
      exact groupsFold_ne_tooMany _ _ _ _ _ _ heq2
    · exact Except.noConfusion h

lemma firstOccurAux_mem :
    ∀ (l : List ℚ) (acc : List ℚ) (v : ℚ),
      v ∈ l.foldl (fun acc v => if v ∈ acc then acc else acc ++ [v]) acc ↔
        v ∈ acc ∨ v ∈ l := by
  intro l
  induction l with
  | nil => intro acc v; simp
  | cons w tl ih =>
    intro acc v
    rw [List.foldl_cons, ih]
    by_cases hw : w ∈ acc
    · rw [if_pos hw]
      constructor
      · rintro (h | h)
        · exact Or.inl h
        · exact Or.inr (List.mem_cons_of_mem _ h)
      · rintro (h | h)
        · exact Or.inl h
        · rcases List.mem_cons.mp h with rfl | h2
          · exact Or.inl hw
          · exact Or.inr h2
    · rw [if_neg hw]
      constructor
      · rintro (h | h)
        · rcases List.mem_append.mp h with h2 | h2
          · exact Or.inl h2
          · rcases List.mem_singleton.mp h2 with rfl
            exact Or.inr (List.mem_cons_self _ _)
        · exact Or.inr (List.mem_cons_of_mem _ h)
      · rintro (h | h)
        · exact Or.inl (List.mem_append_left _ h)
        · rcases List.mem_cons.mp h with rfl | h2
          · exact Or.inl (List.mem_append_right _ (List.mem_singleton.mpr rfl))
          · exact Or.inr h2

lemma mem_firstOccur (vals : List ℚ) (v : ℚ) : v ∈ firstOccur vals ↔ v ∈ vals := by
  unfold firstOccur
  rw [firstOccurAux_mem]
  simp

lemma firstOccur_append (vals : List ℚ) (v : ℚ) :
    firstOccur (vals ++ [v]) =
      if v ∈ firstOccur vals then firstOccur vals else firstOccur vals ++ [v] := by
  unfold firstOccur
  rw [List.foldl_append]
  rfl

lemma numbered_append :
    ∀ (l : List ℚ) (k : ℕ) (v : ℚ),
      numbered (l ++ [v]) k =
        numbered l k ++ [(v, zfill 2 (base36Dump (k + l.length + 1)))] := by
  intro l
  induction l with
  | nil => intro k v; rfl
  | cons w tl ih =>
    intro k v
    show (w, zfill 2 (base36Dump (k + 1))) :: numbered (tl ++ [v]) (k + 1) = _
    rw [ih (k + 1) v]
    have he : k + 1 + tl.length + 1 = k + (w :: tl).length + 1 := by
      simp only [List.length_cons]
      omega
    rw [he]
    rfl

lemma numbered_map_fst : ∀ (l : List ℚ) (k : ℕ), (numbered l k).map (fun p => p.1) = l := by
  intro l
  induction l with
  | nil => intro k; rfl
  | cons w tl ih =>
    intro k
    show (w, zfill 2 (base36Dump (k + 1))).1 :: (numbered tl (k + 1)).map (fun p => p.1) = _
    rw [ih (k + 1)]

lemma numbered_length : ∀ (l : List ℚ) (k : ℕ), (numbered l k).length = l.length := by
  intro l
  induction l with
  | nil => intro k; rfl
  | cons w tl ih =>
    intro k
    show (numbered tl (k + 1)).length + 1 = tl.length + 1
    rw [ih (k + 1)]

lemma identLookup_append (idents ext : List (ℚ × String)) (v : ℚ)
    (hv : v ∈ idents.map (fun p => p.1)) :
    identLookup (idents ++ ext) v = identLookup idents v := by
  unfold identLookup
  rw [List.find?_append]
  have hsome : (idents.find? (fun p => decide (p.1 = v))).isSome = true := by
    rw [List.find?_isSome]
    rcases List.mem_map.mp hv with ⟨p, hp, he⟩
    exact ⟨p, hp, by simp [he]⟩
  cases hf : idents.find? (fun p => decide (p.1 = v)) with
  | none => rw [hf] at hsome; exact Bool.noConfusion hsome
  | some p => rfl

lemma identLookup_cons_self (v : ℚ) (s : String) (tl : List (ℚ × String)) :
    identLookup ((v, s) :: tl) v = s := by
  unfold identLookup
  rw [List.find?_cons_of_pos _ (by simp)]

lemma foldl_congr_mem {α β : Type} :
    ∀ (l : List α) (f g : β → α → β) (b : β),
      (∀ x ∈ l, ∀ acc, f acc x = g acc x) → l.foldl f b = l.foldl g b := by
  intro l
  induction l with
  | nil => intro f g b _; rfl
  | cons x tl ih =>
    intro f g b h
    rw [List.foldl_cons, List.foldl_cons, h x (List.mem_cons_self _ _) b]
    exact ih f g _ (fun y hy acc => h y (List.mem_cons_of_mem _ hy) acc)

lemma bpmFold_append (tpb : ℕ) (segs : List BarLength) (sep : String)
    (maps0 : List (String × NoteMap)) (l : List (ℤ × ℚ)) (e : ℤ × ℚ) :
    bpmFold tpb segs sep (l ++ [e]) maps0 =
      bpmStep tpb segs sep (bpmFold tpb segs sep l maps0) e := by
  unfold bpmFold
  rw [List.foldl_append]
  rfl

/-- The BPM-loop invariant: the identifier table lists the distinct values in
first-occurrence order with identifiers base36(1), base36(2), …; one definition line
per table entry; and one reference push per tempo change carrying its value's final
identifier. -/
lemma bpmFold_spec (tpb : ℕ) (segs : List BarLength) (sep : String)
    (maps0 : List (String × NoteMap)) :
    ∀ bpms : List (ℤ × ℚ),
      (bpmFold tpb segs sep bpms maps0).idents =
          numbered (firstOccur (bpms.map (fun p => p.2))) 0 ∧
      (bpmFold tpb segs sep bpms maps0).defLines =
          (bpmFold tpb segs sep bpms maps0).idents.map
            (fun p => "#BPM" ++ p.2 ++ ":" ++ sep ++ format_number p.1) ∧
      (bpmFold tpb segs sep bpms maps0).maps =
          bpms.foldl (fun m p => push_raw tpb segs p.1 bpmRefTag
            (identLookup (bpmFold tpb segs sep bpms maps0).idents p.2) m) maps0 := by
  intro bpms
  induction bpms using List.reverseRecOn with
  | nil => exact ⟨rfl, rfl, rfl⟩
  | append_singleton l e ih =>
    rcases ih with ⟨hid, hdef, hmaps⟩
    rw [bpmFold_append]
    have hfst : (bpmFold tpb segs sep l maps0).idents.map (fun p => p.1) =
        firstOccur (l.map (fun p => p.2)) := by
      rw [hid, numbered_map_fst]
    have hlen : (bpmFold tpb segs sep l maps0).idents.length =
        (firstOccur (l.map (fun p => p.2))).length := by
      rw [hid, numbered_length]
    have hmapsnd : (l ++ [e]).map (fun p => p.2) = l.map (fun p => p.2) ++ [e.2] := by
      rw [List.map_append]
      rfl
    have hfind_mem : ((bpmFold tpb segs sep l maps0).idents.find?
        (fun p => decide (p.1 = e.2))).isSome = true ↔
        e.2 ∈ firstOccur (l.map (fun p => p.2)) := by
      rw [List.find?_isSome, ← hfst]
      constructor
      · rintro ⟨p, hp, hpe⟩
        simp only [decide_eq_true_eq] at hpe
        exact hpe ▸ List.mem_map.mpr ⟨p, hp, rfl⟩
      · intro hmem
        rcases List.mem_map.mp hmem with ⟨p, hp, he⟩
        exact ⟨p, hp, by simp [he]⟩
    by_cases hmem : e.2 ∈ firstOccur (l.map (fun p => p.2))
    · -- the value was seen before: table and lines unchanged, one more push
      have hcond : ((bpmFold tpb segs sep l maps0).idents.find?
          (fun p => decide (p.1 = e.2))).isSome = true := hfind_mem.mpr hmem
      simp only [bpmStep]
      rw [if_pos hcond]
      refine ⟨?_, ?_, ?_⟩
      · show (bpmFold tpb segs sep l maps0).idents = _
        rw [hid, hmapsnd, firstOccur_append, if_pos hmem]
      · exact hdef
      · show push_raw tpb segs e.1 bpmRefTag
            (identLookup (bpmFold tpb segs sep l maps0).idents e.2)
            (bpmFold tpb segs sep l maps0).maps = _
        rw [List.foldl_append, List.foldl_cons, List.foldl_nil, ← hmaps]
    · -- a new value: appended table entry, one more definition line, one more push
      have hcond : ¬(((bpmFold tpb segs sep l maps0).idents.find?
          (fun p => decide (p.1 = e.2))).isSome = true) := by
        rw [hfind_mem]
        exact hmem
      simp only [bpmStep]
      rw [if_neg hcond]
      have hidnew : (bpmFold tpb segs sep l maps0).idents ++
          [(e.2, zfill 2 (base36Dump ((bpmFold tpb segs sep l maps0).idents.length + 1)))] =
          numbered (firstOccur ((l ++ [e]).map (fun p => p.2))) 0 := by
        rw [hmapsnd, firstOccur_append, if_neg hmem, numbered_append, hid,
          numbered_length, Nat.zero_add]
      refine ⟨hidnew, ?_, ?_⟩
      · show (bpmFold tpb segs sep l maps0).defLines ++ _ = _
        rw [hdef, List.map_append]
        rfl
      · show push_raw tpb segs e.1 bpmRefTag _ (bpmFold tpb segs sep l maps0).maps = _
        rw [List.foldl_append, List.foldl_cons, List.foldl_nil, hmaps]
        congr 1
        refine foldl_congr_mem l _ _ maps0 ?_
        intro p hp acc
        have hpv : p.2 ∈ (bpmFold tpb segs sep l maps0).idents.map (fun q => q.1) := by
          rw [hfst, mem_firstOccur]
          exact List.mem_map.mpr ⟨p, hp, rfl⟩
        rw [identLookup_append _ _ _ hpv]

/-- C6: BPM identifiers are assigned in first-occurrence order over the tempo-change
list — the k-th distinct value (1-based) gets the two-character base-36 identifier of
k, so the first is "01" and the second "02"; each distinct value produces exactly one
definition line; every tempo change pushes one reference symbol carrying its value's
identifier, so two changes with an equal value yield one definition directive and two
reference pushes with the same identifier "01". -/
theorem C6_bpm_identifiers (tpb : ℕ) (segs : List BarLength) (sep : String)
    (maps0 : List (String × NoteMap)) :
    zfill 2 (base36Dump 1) = "01" ∧ zfill 2 (base36Dump 2) = "02" ∧
    (∀ bpms : List (ℤ × ℚ),
      (bpmFold tpb segs sep bpms maps0).idents =
          numbered (firstOccur (bpms.map (fun p => p.2))) 0 ∧
      (bpmFold tpb segs sep bpms maps0).defLines =
          (bpmFold tpb segs sep bpms maps0).idents.map
            (fun p => "#BPM" ++ p.2 ++ ":" ++ sep ++ format_number p.1) ∧
      (bpmFold tpb segs sep bpms maps0).maps =
          bpms.foldl (fun m p => push_raw tpb segs p.1 bpmRefTag
            (identLookup (bpmFold tpb segs sep bpms maps0).idents p.2) m) maps0) ∧
    (∀ (t1 t2 : ℤ) (v : ℚ),
      (bpmFold tpb segs sep [(t1, v), (t2, v)] maps0).defLines =
        ["#BPM" ++ "01" ++ ":" ++ sep ++ format_number v] ∧
      (bpmFold tpb segs sep [(t1, v), (t2, v)] maps0).maps =
        push_raw tpb segs t2 bpmRefTag "01"
          (push_raw tpb segs t1 bpmRefTag "01" maps0)) := by
  have h01 : zfill 2 (base36Dump 1) = "01" := by
    rw [base36Dump]
    norm_num [base36Digit, zfill]
    rfl
  have h02 : zfill 2 (base36Dump 2) = "02" := by
    rw [base36Dump]
    norm_num [base36Digit, zfill]
    rfl
  refine ⟨h01, h02, bpmFold_spec tpb segs sep maps0, ?_⟩
  intro t1 t2 v
  have hs1 : bpmStep tpb segs sep ⟨[], [], maps0⟩ (t1, v) =
      ⟨[(v, zfill 2 (base36Dump 1))],
       ["#BPM" ++ zfill 2 (base36Dump 1) ++ ":" ++ sep ++ format_number v],
       push_raw tpb segs t1 bpmRefTag (zfill 2 (base36Dump 1)) maps0⟩ := by
    simp only [bpmStep, List.find?_nil, Option.isSome_none, Bool.false_eq_true, if_false,
      List.nil_append, List.length_nil, Nat.zero_add, identLookup_cons_self]
  have hs2 : ∀ (s : String) (L : List String) (M : List (String × NoteMap)),
      bpmStep tpb segs sep ⟨[(v, s)], L, M⟩ (t2, v) =
        ⟨[(v, s)], L, push_raw tpb segs t2 bpmRefTag s M⟩ := by
    intro s L M
    simp only [bpmStep]
    rw [if_pos (by rw [List.find?_cons_of_pos _ (by simp)]; rfl)]
    rw [identLookup_cons_self]
  have hfold : bpmFold tpb segs sep [(t1, v), (t2, v)] maps0 =
      bpmStep tpb segs sep (bpmStep tpb segs sep ⟨[], [], maps0⟩ (t1, v)) (t2, v) := rfl
  rw [hfold, hs1, hs2, h01]
  exact ⟨rfl, rfl⟩

lemma sortByFst_nil : sortByFst [] = [] :=
  List.mergeSort_nil

lemma sortGroups_nil : sortGroups [] = [] :=
  List.mergeSort_nil

lemma bar_lengths_in_ticks_nil (tpb : ℕ) : bar_lengths_in_ticks tpb [] = [] :=
  rfl

lemma push_raw_nil_segs (tpb : ℕ) (tick : ℤ) (info data : String)
    (maps : List (String × NoteMap)) : push_raw tpb [] tick info data maps = maps :=
  rfl

lemma pushNotes_nil_segs (tpb : ℕ) (cat : String) :
    ∀ (notes : List Note) (maps : List (String × NoteMap)),
      pushNotes tpb [] cat notes maps = maps := by
  intro notes
  induction notes with
  | nil => intro maps; rfl
  | cons n tl ih => intro maps; exact ih maps

lemma bpmStep_maps_nil (tpb : ℕ) (sep : String) (st : BpmState) (e : ℤ × ℚ) :
    (bpmStep tpb [] sep st e).maps = st.maps := by
  simp only [bpmStep]
  split <;> rfl

lemma bpmFold_maps_nil (tpb : ℕ) (sep : String) :
    ∀ (bpms : List (ℤ × ℚ)) (st : BpmState),
      (bpms.foldl (bpmStep tpb [] sep) st).maps = st.maps := by
  intro bpms
  induction bpms with
  | nil => intro st; rfl
  | cons e tl ih =>
    intro st
    rw [List.foldl_cons, ih, bpmStep_maps_nil]

lemma noteSections_empty_groups (tpb : ℕ) (sep : String) (bpms : List (ℤ × ℚ))
    (taps dirs : List Note) :
    noteSections tpb [] sep bpms taps dirs [] [] =
      .ok ((bpmFold tpb [] sep bpms []).defLines, []) := by
  show Except.ok ((bpmFold tpb [] sep bpms []).defLines,
      pushNotes tpb [] airCat dirs
        (pushNotes tpb [] tapCat taps (bpmFold tpb [] sep bpms []).maps)) = _
  rw [show (bpmFold tpb [] sep bpms []).maps = [] from bpmFold_maps_nil tpb sep bpms _,
    pushNotes_nil_segs, pushNotes_nil_segs]

/-- With an empty bar-length list dumps proceeds: there is no validation, every push
is a no-op, and (absent resource errors) a document with empty bar-length and
note-line sections is produced. -/
lemma dumpsParts_of_empty (score : Score) (sp : Bool)
    (hbl : score.bar_lengths = []) (hsl : score.slides = []) (hgl : score.guides = [])
    (hbp : score.bpms.length < 36 ^ 2 - 1) :
    dumpsParts score sp = .ok ⟨metaTpb score.metadata, metaLines score.metadata, [],
      (bpmFold (metaTpb score.metadata) [] (if sp then spaceStr else "")
        (sortByFst score.bpms) []).defLines,
      [tilLine (metaTpb score.metadata) (sortByFst score.tils), hispeedStub, measureHsStub],
      []⟩ := by
  simp only [dumpsParts]
  rw [hbl, hsl, hgl, sortByFst_nil, sortGroups_nil, bar_lengths_in_ticks_nil]
  rw [if_neg (by rw [sortByFst_length]; omega)]
  rw [noteSections_empty_groups]
  rfl

/-- C3 (amended): serialization performs no validation of the bar-length table.  With
an empty list it does not fail: all pushes are dropped and, absent resource-limit
errors, a document with empty bar-length and note-line sections is produced; and a
table whose first entry's measure is m ≠ 0 is likewise accepted, its first segment
simply anchored at tick 0 with measure m. -/
theorem C3_no_validation (score : Score) (sp : Bool)
    (hbl : score.bar_lengths = []) (hsl : score.slides = []) (hgl : score.guides = [])
    (hbp : score.bpms.length < 36 ^ 2 - 1) :
    (∃ p, dumpsParts score sp = .ok p ∧ p.barLines = [] ∧ p.noteLines = []) ∧
    (∀ (tpb : ℕ) (m : ℤ) (v : ℚ) (rest : List (ℤ × ℚ)),
      (buildSegments tpb 0 ((m, v) :: rest)).head? = some ⟨0, m, v⟩) := by
  constructor
  · exact ⟨_, dumpsParts_of_empty score sp hbl hsl hgl hbp, rfl, rfl⟩
  · intro tpb m v rest
    cases rest <;> rfl

/-- Witness for C3's amended statement on the concrete empty score. -/
theorem C3_no_validation_witness :
    (emptyBarScore.bar_lengths = [] ∧ emptyBarScore.slides = [] ∧
      emptyBarScore.guides = [] ∧ emptyBarScore.bpms.length < 36 ^ 2 - 1) ∧
    ((∃ p, dumpsParts emptyBarScore false = .ok p ∧ p.barLines = [] ∧ p.noteLines = []) ∧
    (∀ (tpb : ℕ) (m : ℤ) (v : ℚ) (rest : List (ℤ × ℚ)),
      (buildSegments tpb 0 ((m, v) :: rest)).head? = some ⟨0, m, v⟩)) :=
  ⟨⟨rfl, rfl, rfl, by decide⟩, C3_no_validation emptyBarScore false rfl rfl rfl (by decide)⟩

/-- Counterexample to C3 as stated: serializing a score whose bar-length list is
empty does not fail with any error — the complete document is returned. -/
theorem C3_counterexample :
    dumps emptyBarScore cxComment false =
      Except.ok [cxComment, "", "", "", tilLine 480 [], hispeedStub, measureHsStub,
        "", ""] := by
  unfold dumps
  rw [dumpsParts_of_empty emptyBarScore false rfl rfl rfl (by decide)]
  simp only [emptyBarScore]
  rw [sortByFst_nil]
  rfl

lemma sortByTick_nil : sortByTick [] = [] :=
  List.mergeSort_nil

lemma sortByFst_singleton (p : ℤ × ℚ) : sortByFst [p] = [p] :=
  List.mergeSort_singleton p

lemma append_ne_empty (a b : String) (ha : a.length ≠ 0) : a ++ b ≠ "" := by
  intro h
  have hl := congrArg String.length h
  rw [String.length_append] at hl
  rw [show ("" : String).length = 0 from rfl] at hl
  omega

lemma not_mem_optBlock {α : Type} (o : Option α) (f : α → String)
    (hf : ∀ v, f v ≠ "") : "" ∉ optLine o f := by
  cases o with
  | none => simp [optLine]
  | some v =>
    intro h
    unfold optLine at h
    exact hf v (List.mem_singleton.mp h).symm

lemma blank_not_mem_metaPlain (md : Metadata) : "" ∉ metaPlainLines md := by
  intro h
  unfold metaPlainLines at h
  rcases List.mem_append.mp h with h1 | hw
  · rcases List.mem_append.mp h1 with h2 | hd
    · rcases List.mem_append.mp h2 with ht | ha
      · exact not_mem_optBlock md.title (fun v => "#TITLE " ++ quoteStr v)
          (fun v => append_ne_empty _ _ (by decide)) ht
      · exact not_mem_optBlock md.artist (fun v => "#ARTIST " ++ quoteStr v)
          (fun v => append_ne_empty _ _ (by decide)) ha
    · exact not_mem_optBlock md.designer (fun v => "#DESIGNER " ++ quoteStr v)
        (fun v => append_ne_empty _ _ (by decide)) hd
  · exact not_mem_optBlock md.waveoffset (fun v => "#WAVEOFFSET " ++ format_number v)
      (fun v => append_ne_empty _ _ (by decide)) hw

lemma sortByFst_sorted (xs : List (ℤ × ℚ)) :
    List.Pairwise (fun a b : ℤ × ℚ => a.1 ≤ b.1) (sortByFst xs) := by
  have h := @List.sorted_mergeSort (ℤ × ℚ) (fun a b => decide (a.1 ≤ b.1))
    (fun a b c hab hbc => by
      simp only [decide_eq_true_eq] at hab hbc ⊢
      omega)
    (fun a b => by
      by_cases hab : a.1 ≤ b.1
      · simp [hab]
      · simp [hab]
        omega)
    xs
  exact h.imp (fun hab => by simpa using hab)

lemma count_blank_zero (l : List String) (hl : "" ∉ l) : List.count "" l = 0 :=
  List.count_eq_zero.mpr hl

lemma claimed_count (doc : List String) (h : ClaimedSectionLayout doc) :
    doc.count "" = 5 := by
  rcases h with ⟨c, metaL, barL, bpmL, stubL, noteL, hdoc, hc, h1, h2, h3, h4, h5⟩
  subst hdoc
  have hc0 : List.count "" [c] = 0 :=
    count_blank_zero _ (fun hm => hc (List.mem_singleton.mp hm).symm)
  have hone : List.count "" ([""] : List String) = 1 := by decide
  simp only [List.count_append, hc0, count_blank_zero _ h1, count_blank_zero _ h2,
    count_blank_zero _ h3, count_blank_zero _ h4, count_blank_zero _ h5, hone]

lemma dumpsParts_requestsScore :
    dumpsParts requestsScore false =
      .ok ⟨480, metaLines requestsScore.metadata, [barDirective "" ((0 : ℤ), (4 : ℚ))],
        [], [tilLine 480 [], hispeedStub, measureHsStub], []⟩ := by
  simp only [dumpsParts, requestsScore]
  simp only [sortByFst_nil, sortByFst_singleton, sortByTick_nil, sortGroups_nil]
  rw [if_neg (by decide)]
  rfl

/-- C7 (amended): a successful dumps output is exactly the fixed section sequence —
comment, metadata lines, blank, bar-length directives (sorted by measure ascending),
blank, BPM definitions, blank, the timescale line and the two fixed stubs, blank,
rendered note lines, trailing blank — except that the metadata block itself contains
one extra blank line immediately before the "#REQUEST" directives whenever the
requests field is present. -/
theorem C7_section_order (score : Score) (c : String) (sp : Bool) (doc : List String)
    (h : dumps score c sp = Except.ok doc) :
    ∃ p : DumpParts, dumpsParts score sp = Except.ok p ∧
      doc = [c] ++ p.meta ++ [""] ++ p.barLines ++ [""] ++ p.bpmLines ++ [""] ++
        p.stubLines ++ [""] ++ p.noteLines ++ [""] ∧
      p.meta = metaPlainLines score.metadata ++ metaReqBlock score.metadata ∧
      ("" ∉ metaPlainLines score.metadata) ∧
      (∀ rs, score.metadata.requests = some rs →
        metaReqBlock score.metadata = "" :: rs.map (fun r => "#REQUEST " ++ quoteStr r)) ∧
      (score.metadata.requests = none → metaReqBlock score.metadata = []) ∧
      p.barLines = (sortByFst score.bar_lengths).map
        (barDirective (if sp then spaceStr else "")) ∧
      List.Pairwise (fun a b : ℤ × ℚ => a.1 ≤ b.1) (sortByFst score.bar_lengths) ∧
      (∃ til, p.stubLines = [til, hispeedStub, measureHsStub]) ∧
      (∃ maps, p.noteLines = renderLines (if sp then spaceStr else "") maps) := by
  cases hp : dumpsParts score sp with
  | error e =>
    unfold dumps at h
    rw [hp] at h
    simp only [Except.map] at h
    exact Except.noConfusion h
  | ok p =>
    have hp0 := hp
    unfold dumps at h
    rw [hp0] at h
    simp only [Except.map] at h
    injection h with hdoc
    simp only [dumpsParts] at hp
    split at hp
    · exact Except.noConfusion hp
    · split at hp
      · exact Except.noConfusion hp
      · rename_i r heq
        injection hp with hrec
        subst hrec
        refine ⟨_, rfl, hdoc.symm, rfl, blank_not_mem_metaPlain _, ?_, ?_, rfl,
          sortByFst_sorted _, ⟨_, rfl⟩, ⟨_, rfl⟩⟩
        · intro rs hrs
          unfold metaReqBlock
          rw [hrs]
        · intro hrs
          unfold metaReqBlock
          rw [hrs]

/-- Witness for C7's amended statement on a concrete score with a requests field. -/
theorem C7_section_order_witness :
    (dumps requestsScore cxComment false =
      Except.ok ([cxComment] ++ metaLines requestsScore.metadata ++ [""] ++
        [barDirective "" ((0 : ℤ), (4 : ℚ))] ++ [""] ++ [] ++ [""] ++
        [tilLine 480 [], hispeedStub, measureHsStub] ++ [""] ++ [] ++ [""])) ∧
    (∃ p : DumpParts, dumpsParts requestsScore false = Except.ok p ∧
      ([cxComment] ++ metaLines requestsScore.metadata ++ [""] ++
        [barDirective "" ((0 : ℤ), (4 : ℚ))] ++ [""] ++ [] ++ [""] ++
        [tilLine 480 [], hispeedStub, measureHsStub] ++ [""] ++ [] ++ [""]) =
          [cxComment] ++ p.meta ++ [""] ++ p.barLines ++ [""] ++ p.bpmLines ++ [""] ++
            p.stubLines ++ [""] ++ p.noteLines ++ [""] ∧
      p.meta = metaPlainLines requestsScore.metadata ++ metaReqBlock requestsScore.metadata ∧
      ("" ∉ metaPlainLines requestsScore.metadata) ∧
      (∀ rs, requestsScore.metadata.requests = some rs →
        metaReqBlock requestsScore.metadata =
          "" :: rs.map (fun r => "#REQUEST " ++ quoteStr r)) ∧
      (requestsScore.metadata.requests = none →
        metaReqBlock requestsScore.metadata = []) ∧
      p.barLines = (sortByFst requestsScore.bar_lengths).map
        (barDirective (if false then spaceStr else "")) ∧
      List.Pairwise (fun a b : ℤ × ℚ => a.1 ≤ b.1) (sortByFst requestsScore.bar_lengths) ∧
      (∃ til, p.stubLines = [til, hispeedStub, measureHsStub]) ∧
      (∃ maps, p.noteLines = renderLines (if false then spaceStr else "") maps)) := by
  have hd : dumps requestsScore cxComment false =
      Except.ok ([cxComment] ++ metaLines requestsScore.metadata ++ [""] ++
        [barDirective "" ((0 : ℤ), (4 : ℚ))] ++ [""] ++ [] ++ [""] ++
        [tilLine 480 [], hispeedStub, measureHsStub] ++ [""] ++ [] ++ [""]) := by
    unfold dumps
    rw [dumpsParts_requestsScore]
    rfl
  exact ⟨hd, C7_section_order requestsScore cxComment false _ hd⟩

/-- Counterexample to C7 as stated: with a present requests field the document holds
six blank lines, one inside the metadata block right before the request directives,
so it cannot be split into the claimed five blank-separated blank-free sections. -/
theorem C7_counterexample :
    ∃ doc, dumps requestsScore cxComment false = Except.ok doc ∧
      ¬ClaimedSectionLayout doc := by
  refine ⟨[cxComment] ++ metaLines requestsScore.metadata ++ [""] ++
      [barDirective "" ((0 : ℤ), (4 : ℚ))] ++ [""] ++ [] ++ [""] ++
      [tilLine 480 [], hispeedStub, measureHsStub] ++ [""] ++ [] ++ [""], ?_, ?_⟩
  · unfold dumps
    rw [dumpsParts_requestsScore]
    rfl
  · intro h
    have h5 := claimed_count _ h
    have hm : metaLines requestsScore.metadata = ["#TITLE " ++ quoteStr "T", ""] := rfl
    have h6 : List.count ""
        ([cxComment] ++ metaLines requestsScore.metadata ++ [""] ++
          [barDirective "" ((0 : ℤ), (4 : ℚ))] ++ [""] ++ [] ++ [""] ++
          [tilLine 480 [], hispeedStub, measureHsStub] ++ [""] ++ [] ++ [""]) = 6 := by
      rw [hm]
      have hbar : List.count "" [barDirective "" ((0 : ℤ), (4 : ℚ))] = 0 :=
        count_blank_zero _ (fun hmem => append_ne_empty _ _ (by decide)
          (List.mem_singleton.mp hmem).symm)
      have hstub : List.count "" [tilLine 480 [], hispeedStub, measureHsStub] = 0 := by
        refine count_blank_zero _ ?_
        intro hmem
        rcases List.mem_cons.mp hmem with he | hmem2
        · exact append_ne_empty _ _ (by decide) he.symm
        · rcases List.mem_cons.mp hmem2 with he | hmem3
          · exact absurd he.symm (by decide)
          · rcases List.mem_singleton.mp hmem3 with he
            exact absurd he.symm (by decide)
      have hcc : List.count "" [cxComment] = 0 := by decide
      have hmc : List.count "" ["#TITLE " ++ quoteStr "T", ""] = 1 := by decide
      simp only [List.count_append, hbar, hstub, hcc, hmc,
        show List.count "" ([""] : List String) = 1 from by decide,
        show List.count "" ([] : List String) = 0 from rfl]
    rw [h6] at h5
    exact absurd h5 (by norm_num)

/-- C5 (amended): the BPM stage fails with the too-many-BPMs error exactly when the
total number of tempo-change entries — not the number of distinct values — is at
least 36^2 - 1. -/
theorem C5_bpm_guard (score : Score) (space : Bool) :
    dumpsParts score space = .error .tooManyBpms ↔ 36 ^ 2 - 1 ≤ score.bpms.length := by
  constructor
  · intro h
    by_contra hlen
    push_neg at hlen
    simp only [dumpsParts] at h
    rw [if_neg (by rw [sortByFst_length]; omega)] at h
    split at h
    · rename_i e heq
      injection h with h2
      subst h2
      exact noteSections_ne_tooMany _ _ _ _ _ _ _ _ heq
    · exact Except.noConfusion h
  · intro h
    simp only [dumpsParts]
    rw [if_pos (by rw [sortByFst_length]; omega)]

/-- Counterexample to C5 as stated: a tempo-change list of 36^2 - 1 entries that all
share the single value 120 (one distinct value, far below the 36^2 - 1 identifier
ceiling) already makes serialization fail with the too-many-BPMs error. -/
theorem C5_counterexample :
    (∀ p ∈ repeatedBpmScore.bpms, p.2 = (120 : ℚ)) ∧
      repeatedBpmScore.bpms.length = 36 ^ 2 - 1 ∧
      dumpsParts repeatedBpmScore false = .error .tooManyBpms := by
  refine ⟨?_, ?_, ?_⟩
  · intro p hp
    have he := List.eq_of_mem_replicate hp
    rw [he]
  · exact List.length_replicate _ _
  · have hc : 36 ^ 2 - 1 ≤ (sortByFst repeatedBpmScore.bpms).length := by
      rw [sortByFst_length]
      show 36 ^ 2 - 1 ≤ (List.replicate (36 ^ 2 - 1) ((0 : ℤ), (120 : ℚ))).length
      rw [List.length_replicate]
    simp only [dumpsParts]
    rw [if_pos hc]

/-- Counterexample to C9 as stated: pushing tick 1920 on the one-measure-4/4 table
stores the raw offset 1920 in the measure-001 bucket whose ticks_per_measure is also
1920 — the stored offset is not reduced modulo the measure length at insertion. -/
theorem C9_counterexample :
    lookupTag (push_raw 480 (bar_lengths_in_ticks 480 [((0 : ℤ), (4 : ℚ))]) 1920
        bpmRefTag symb01 []) tag00108 =
      some ⟨[((1920 : ℤ), symb01)], 1920⟩ ∧
    ¬((1920 : ℤ) < 1920) := by
  constructor
  · have hf : findSeg 1920 (bar_lengths_in_ticks 480 [((0 : ℤ), (4 : ℚ))]) =
        some (⟨0, 0, 4⟩ : BarLength) := by
      rw [segs_one]
      unfold findSeg
      exact List.find?_cons_of_pos _ (by decide)
    unfold push_raw
    rw [hf]
    simp only [curMeasure_one_1920, tpm_one]
    rfl
  · norm_num

end Sus
